import Mathlib

/-!
# Verification of the handwriting-recognition pipeline

Shallow embedding of `backend/ml_models/handwriting_recognition.py`
(classes `TesseractOCRProcessor` / `HandwritingAnalyzer`).

Conventions of the embedding:
* Python strings are modelled as `List Char` (`Str`); Python text helpers
  (`str.split()`, `str.strip()`, `str.replace`, the few regexes used by the
  post-processor) are re-implemented over `List Char` restricted to ASCII.
* Python floats are modelled as exact rationals `ℚ`; the numeric literals of
  the source (`0.6`, `0.00005`, `1.8`, ...) are taken at their written value.
* Calls into external libraries (Tesseract, OpenCV, PIL, numpy image decoding)
  are modelled as inputs: each environment structure carries the data such a
  call would have produced, with `Option`/`Bool` fields standing for the
  exceptions the source catches.  All code after those boundary calls is
  translated statement by statement from the source.
* Python `sorted` (a stable sort) is modelled by a stable insertion sort
  (`sortStable`): each element is inserted after all elements the comparison
  allows before it, which reproduces stability.
-/

abbrev Str := List Char

/-- Python whitespace for `str.split()` / `str.strip()` / `\s` (ASCII range). -/
def pyIsSpace (c : Char) : Bool :=
  c == ' ' || c == '\t' || c == '\n' || c == '\r' || c == '\x0b' || c == '\x0c'

/-- Left part of Python `str.strip()`. -/
def trimLeft (s : Str) : Str := s.dropWhile pyIsSpace

/-- Right part of Python `str.strip()`. -/
def trimRight (s : Str) : Str := (s.reverse.dropWhile pyIsSpace).reverse

/-- Python `str.strip()`. -/
def strTrim (s : Str) : Str := trimRight (trimLeft s)

/-- Worker for `pyWords`: accumulates the current word (reversed). -/
def pyWordsAux : Str → Str → List Str
  | [], cur => if cur = [] then [] else [cur.reverse]
  | c :: rest, cur =>
    if pyIsSpace c then
      if cur = [] then pyWordsAux rest [] else cur.reverse :: pyWordsAux rest []
    else pyWordsAux rest (c :: cur)

/-- Python `str.split()` with no argument: split on whitespace runs,
no empty words. -/
def pyWords (s : Str) : List Str := pyWordsAux s []

/-- Python `sep.join(strings)`. -/
def joinSep (sep : Str) : List Str → Str
  | [] => []
  | [x] => x
  | x :: y :: xs => x ++ sep ++ joinSep sep (y :: xs)

/-- Stable insertion used by `sortStable`: `x` moves past every `y` with
`keep y x = true`, hence lands after all equal keys (stability). -/
def insertStable (keep : α → α → Bool) (x : α) : List α → List α
  | [] => [x]
  | y :: ys => if keep y x then y :: insertStable keep x ys else x :: y :: ys

/-- Stable sort modelling Python `sorted`; `keep a b = true` when `a` may stay
before `b`. -/
def sortStable (keep : α → α → Bool) (l : List α) : List α :=
  l.foldl (fun acc x => insertStable keep x acc) []

/- ### `_score_ocr_result` (handwriting_recognition.py lines 380-389) -/

/-- `TesseractOCRProcessor._score_ocr_result`.  The source builds
`words = [w for w in text.split() if w]`; `str.split()` never yields empty
strings, so the comprehension filter is the identity and `pyWords` models it
directly. -/
def score_ocr_result (text : Str) (mean_conf : ℚ) : ℚ :=
  if text = [] then -1
  else
    let words := pyWords text
    if words = [] then -1
    else
      let alpha_ratio : ℚ :=
        ((words.filter (fun w => w.any Char.isAlpha)).length : ℚ) / (words.length : ℚ)
      let length_bonus : ℚ := min ((text.length : ℚ) / 100) 1
      (6/10) * (mean_conf / 100) + (3/10) * alpha_ratio + (1/10) * length_bonus

/-- C1: an OCR attempt with non-empty text containing at least one
whitespace-delimited word scores
`0.6·(mean_conf/100) + 0.3·(fraction of words containing a letter)
 + 0.1·min(text_length/100, 1)`; an attempt with empty text or no words
scores `-1`. -/
theorem score_ocr_result_matches_spec (text : Str) (mean_conf : ℚ) :
    score_ocr_result text mean_conf =
      if text = [] ∨ pyWords text = [] then -1
      else
        (6/10) * (mean_conf / 100)
          + (3/10) * (((pyWords text).filter (fun w => w.any Char.isAlpha)).length : ℚ)
              / ((pyWords text).length : ℚ)
          + (1/10) * min ((text.length : ℚ) / 100) 1 := by
  unfold score_ocr_result
  by_cases h1 : text = []
  · simp [h1]
  · by_cases h2 : pyWords text = []
    · simp [h1, h2]
    · simp only [h1, h2, or_self, if_false]
      ring

/- ### `_ocr_with_tokens` (lines 274-378) -/

/-- `cv2.boundingRect`-style box `(x, y, w, h)`; Python ints. -/
structure Bbox where
  x : ℤ
  y : ℤ
  w : ℤ
  h : ℤ
deriving DecidableEq

/-- One row of `pytesseract.image_to_data(..., output_type=DICT)`.
`conf` already holds the parsed float; the source maps unparsable or missing
confidences to `-1.0`, which the filter below discards. -/
structure RawRow where
  word : Str
  conf : ℚ
  bbox : Bbox
  line_num : ℤ
  block_num : ℤ
  par_num : ℤ
  word_num : ℤ
deriving DecidableEq

/-- A word token kept by `_ocr_with_tokens` (`word` is already stripped and
non-empty, `conf ≥ 0`). -/
structure OcrToken where
  word : Str
  conf : ℚ
  bbox : Bbox
  line_num : ℤ
  block_num : ℤ
  par_num : ℤ
  word_num : ℤ
deriving DecidableEq

instance : Inhabited OcrToken := ⟨⟨[], 0, ⟨0, 0, 0, 0⟩, 0, 0, 0, 0⟩⟩

/-- Token filter of the source loop: keep a row when the stripped word is
non-empty and the confidence is ≥ 0. -/
def parseTokens (rows : List RawRow) : List OcrToken :=
  rows.filterMap (fun r =>
    let w := strTrim r.word
    if w ≠ [] ∧ r.conf ≥ 0 then
      some { word := w, conf := r.conf, bbox := r.bbox, line_num := r.line_num,
             block_num := r.block_num, par_num := r.par_num, word_num := r.word_num }
    else none)

/-- Sort key of `sorted(tokens, key=lambda t: (t['par_num'], t['line_num'], t['bbox'][0]))`:
lexicographic comparison on `(par_num, line_num, x)`. -/
def tokKeep (a b : OcrToken) : Bool :=
  decide (a.par_num < b.par_num) ||
    (decide (a.par_num = b.par_num) &&
      (decide (a.line_num < b.line_num) ||
        (decide (a.line_num = b.line_num) && decide (a.bbox.x ≤ b.bbox.x))))

/-- One step of the line-regrouping loop: state is
(`text_lines` as token groups, `current_line`, `current_key`). -/
def groupStep (acc : List (List OcrToken) × List OcrToken × Option (ℤ × ℤ))
    (t : OcrToken) : List (List OcrToken) × List OcrToken × Option (ℤ × ℤ) :=
  let k := (t.par_num, t.line_num)
  match acc with
  | (groups, cur, none) => (groups, cur ++ [t], some k)
  | (groups, cur, some c) =>
    if k ≠ c then (groups ++ [cur], [t], some k) else (groups, cur ++ [t], some c)

/-- The line groups produced by the reconstruction loop of `_ocr_with_tokens`
(the source joins each group into a string as it goes; grouping first and
joining afterwards computes the same list of line strings). -/
def groupLines (ts : List OcrToken) : List (List OcrToken) :=
  let r := ts.foldl groupStep ([], [], none)
  if r.2.1 = [] then r.1 else r.1 ++ [r.2.1]

/-- `text = '\n'.join([ln.strip() for ln in text_lines if ln.strip()])` where
`text_lines` joins each line group's words with single spaces. -/
def buildText (ts : List OcrToken) : Str :=
  let text_lines := (groupLines ts).map (fun g => joinSep [' '] (g.map OcrToken.word))
  joinSep ['\n'] ((text_lines.map strTrim).filter (fun l => decide (l ≠ [])))

/-- `mean_conf = sum(t['conf'] for t in tokens_sorted) / max(1, len(tokens_sorted))`. -/
def meanConf (ts : List OcrToken) : ℚ := (ts.map OcrToken.conf).sum / ((max 1 ts.length : ℕ) : ℚ)

/-- `text.replace('\n', ' ')`. -/
def nlToSpace (s : Str) : Str := s.map (fun c => if c = '\n' then ' ' else c)

/-- One transcription attempt as scored by the orchestrator
(the `best`-dictionary shape of the source). -/
structure Attempt where
  text : Str
  tokens : List OcrToken
  mean_conf : ℚ
  score : ℚ
deriving DecidableEq

/-- Attempt built from the kept tokens of one `(image, config)` iteration. -/
def mkAttempt (toks : List OcrToken) : Attempt :=
  let sorted := sortStable tokKeep toks
  let text := buildText sorted
  let mc := meanConf sorted
  { text := text, tokens := sorted, mean_conf := mc,
    score := score_ocr_result (nlToSpace text) mc }

/-- One `(image, config)` iteration of the double loop: `none` models an
exception from `image_to_data` (the source `continue`s), and an iteration
whose kept-token list is empty is also skipped (`if not tokens: continue`). -/
def parseAttempt (raw : Option (List RawRow)) : Option Attempt :=
  match raw with
  | none => none
  | some rows =>
    let toks := parseTokens rows
    if toks = [] then none else some (mkAttempt toks)

/-- `best = {"text": "", "tokens": [], "mean_conf": 0.0, "score": -1.0}`. -/
def initBest : Attempt := { text := [], tokens := [], mean_conf := 0, score := -1 }

/-- `if score > best['score']: best = ...` -/
def bestStep (best : Attempt) (raw : Option (List RawRow)) : Attempt :=
  match parseAttempt raw with
  | none => best
  | some a => if a.score > best.score then a else best

/-- External inputs of `_ocr_with_tokens`: the `image_to_data` output for each
`(image variant, config)` pair of the cross product, in loop order, and the
`image_to_string` fallback call (`none` = the fallback call raised). -/
structure OcrEnv where
  attempts : List (Option (List RawRow))
  fallback : Option Str
deriving DecidableEq

/-- The `best` dictionary after the double loop. -/
def loopBest (env : OcrEnv) : Attempt := env.attempts.foldl bestStep initBest

/-- The `best` dictionary after the `image_to_string` fallback block
(lines 370-376): the fallback replaces `best` only when no tokens or no text
were retained and the stripped fallback text is longer. -/
def ocrSelectBest (env : OcrEnv) : Attempt :=
  let b := loopBest env
  if b.text = [] ∨ b.tokens = [] then
    match env.fallback with
    | some f =>
      let ft := strTrim f
      if ft ≠ [] ∧ ft.length > b.text.length then
        { text := ft, tokens := [], mean_conf := 0, score := score_ocr_result ft 50 }
      else b
    | none => b
  else b

/-- Return value `{k: best[k] for k in ("text", "tokens", "mean_conf")}`. -/
structure OcrResult where
  text : Str
  tokens : List OcrToken
  mean_conf : ℚ
deriving DecidableEq

/-- `TesseractOCRProcessor._ocr_with_tokens` (the `tesseract_available` guard
at its top is handled by the caller model, which only reaches this function
when the engine is available). -/
def ocrWithTokens (env : OcrEnv) : OcrResult :=
  let b := ocrSelectBest env
  { text := b.text, tokens := b.tokens, mean_conf := b.mean_conf }

/-- All attempts the double loop actually computed and scored. -/
def computedAttempts (env : OcrEnv) : List Attempt :=
  env.attempts.filterMap parseAttempt

/- ### Helper lemmas for the orchestrator proofs -/

theorem mem_insertStable (keep : α → α → Bool) (x a : α) (l : List α) :
    a ∈ insertStable keep x l ↔ a = x ∨ a ∈ l := by
  induction l with
  | nil => simp [insertStable]
  | cons y ys ih =>
    by_cases h : keep y x = true
    · simp only [insertStable, if_pos h, List.mem_cons, ih]
      tauto
    · simp only [insertStable, if_neg h, List.mem_cons]

theorem mem_sortStable_fold (keep : α → α → Bool) (l : List α) :
    ∀ acc a, a ∈ l.foldl (fun acc x => insertStable keep x acc) acc ↔ a ∈ acc ∨ a ∈ l := by
  induction l with
  | nil => simp
  | cons x xs ih =>
    intro acc a
    simp only [List.foldl_cons, ih, mem_insertStable, List.mem_cons]
    tauto

theorem mem_sortStable (keep : α → α → Bool) (l : List α) (a : α) :
    a ∈ sortStable keep l ↔ a ∈ l := by
  unfold sortStable
  rw [mem_sortStable_fold]
  simp

theorem length_insertStable (keep : α → α → Bool) (x : α) (l : List α) :
    (insertStable keep x l).length = l.length + 1 := by
  induction l with
  | nil => simp [insertStable]
  | cons y ys ih =>
    by_cases h : keep y x = true <;> simp [insertStable, h, ih]

theorem length_sortStable_fold (keep : α → α → Bool) (l : List α) :
    ∀ acc, (l.foldl (fun acc x => insertStable keep x acc) acc).length
      = acc.length + l.length := by
  induction l with
  | nil => simp
  | cons x xs ih =>
    intro acc
    simp only [List.foldl_cons, ih, length_insertStable, List.length_cons]
    omega

theorem length_sortStable (keep : α → α → Bool) (l : List α) :
    (sortStable keep l).length = l.length := by
  unfold sortStable
  rw [length_sortStable_fold]
  simp

theorem sortStable_ne_nil (keep : α → α → Bool) (l : List α) (h : l ≠ []) :
    sortStable keep l ≠ [] := by
  intro hc
  apply h
  have := length_sortStable keep l
  rw [hc] at this
  exact List.length_eq_zero.mp this.symm

theorem pairwise_insertStable (keep : α → α → Bool) (R : α → α → Prop)
    (h1 : ∀ a b, keep a b = true → R a b) (h2 : ∀ a b, keep a b = false → R b a)
    (htrans : ∀ a b c, R a b → R b c → R a c)
    (x : α) (l : List α) (hl : l.Pairwise R) :
    (insertStable keep x l).Pairwise R := by
  induction l with
  | nil => simp [insertStable]
  | cons y ys ih =>
    rcases List.pairwise_cons.mp hl with ⟨hy, hys⟩
    by_cases h : keep y x = true
    · rw [insertStable, if_pos h]
      refine List.pairwise_cons.mpr ⟨?_, ih hys⟩
      intro a ha
      rcases (mem_insertStable keep x a ys).mp ha with rfl | hmem
      · exact h1 _ _ h
      · exact hy a hmem
    · rw [insertStable, if_neg h]
      refine List.pairwise_cons.mpr ⟨?_, hl⟩
      intro a ha
      rcases List.mem_cons.mp ha with rfl | hmem
      · exact h2 _ _ (Bool.not_eq_true _ ▸ h)
      · exact htrans _ _ _ (h2 _ _ (Bool.not_eq_true _ ▸ h)) (hy a hmem)

theorem pairwise_sortStable (keep : α → α → Bool) (R : α → α → Prop)
    (h1 : ∀ a b, keep a b = true → R a b) (h2 : ∀ a b, keep a b = false → R b a)
    (htrans : ∀ a b c, R a b → R b c → R a c) (l : List α) :
    (sortStable keep l).Pairwise R := by
  suffices h : ∀ acc, acc.Pairwise R →
      (l.foldl (fun acc x => insertStable keep x acc) acc).Pairwise R by
    exact h [] List.Pairwise.nil
  induction l with
  | nil => intro acc hacc; simpa using hacc
  | cons x xs ih =>
    intro acc hacc
    simp only [List.foldl_cons]
    exact ih _ (pairwise_insertStable keep R h1 h2 htrans x acc hacc)

/-- A string that starts with a non-whitespace character (shape of every kept
token word and of every kept line). -/
def GoodWord (s : Str) : Prop := ∃ c t, s = c :: t ∧ pyIsSpace c = false

theorem dropWhile_head_false (p : Char → Bool) (l : List Char) (c : Char) (t : List Char)
    (h : l.dropWhile p = c :: t) : p c = false := by
  induction l with
  | nil => simp at h
  | cons x xs ih =>
    rw [List.dropWhile_cons] at h
    by_cases hx : p x = true
    · rw [if_pos hx] at h
      exact ih h
    · rw [if_neg hx] at h
      cases h
      exact Bool.not_eq_true _ ▸ hx

theorem trimRight_prefix (l : Str) : trimRight l <+: l := by
  unfold trimRight
  rw [← List.reverse_suffix]
  simpa using List.dropWhile_suffix (l := l.reverse) pyIsSpace

theorem trimRight_cons_ne (c : Char) (t : Str) (hc : pyIsSpace c = false) :
    trimRight (c :: t) ≠ [] := by
  unfold trimRight
  intro h
  rw [List.reverse_eq_nil_iff, List.dropWhile_eq_nil_iff] at h
  have : c ∈ (c :: t).reverse := by simp
  have := h c this
  rw [hc] at this
  exact Bool.false_ne_true this

theorem strTrim_cons_good (c : Char) (t : Str) (hc : pyIsSpace c = false) :
    GoodWord (strTrim (c :: t)) := by
  unfold strTrim trimLeft
  rw [List.dropWhile_cons, if_neg (by simp [hc])]
  have hne := trimRight_cons_ne c t hc
  have hpre := trimRight_prefix (c :: t)
  rcases hpre with ⟨u, hu⟩
  cases htr : trimRight (c :: t) with
  | nil => exact absurd htr hne
  | cons c' t' =>
    rw [htr] at hu
    have : c' = c := by
      have := hu
      simp only [List.cons_append] at this
      exact (List.cons.injEq _ _ _ _ ▸ this).1
    exact ⟨c', t', rfl, this ▸ hc⟩

theorem strTrim_good_of_ne (s : Str) (h : strTrim s ≠ []) : GoodWord (strTrim s) := by
  cases hd : s.dropWhile pyIsSpace with
  | nil =>
    exfalso
    apply h
    unfold strTrim trimLeft
    rw [hd]
    rfl
  | cons c t =>
    have hc := dropWhile_head_false pyIsSpace s c t hd
    have hgood := strTrim_cons_good c t hc
    have heq : strTrim s = strTrim (c :: t) := by
      unfold strTrim trimLeft
      rw [hd, List.dropWhile_cons, if_neg (by simp [hc])]
    rwa [heq]

theorem goodWord_ne_nil {s : Str} (h : GoodWord s) : s ≠ [] := by
  rcases h with ⟨c, t, rfl, _⟩
  simp

theorem joinSep_good (sep : Str) (x : Str) (xs : List Str) (hx : GoodWord x) :
    GoodWord (joinSep sep (x :: xs)) := by
  rcases hx with ⟨c, t, rfl, hc⟩
  cases xs with
  | nil => exact ⟨c, t, rfl, hc⟩
  | cons y ys => exact ⟨c, t ++ sep ++ joinSep sep (y :: ys), by simp [joinSep], hc⟩

/-- Invariant of the regrouping fold: every flushed group is non-empty with
elements drawn from `S`, the current line has elements from `S`, and once a
key exists the current line is non-empty. -/
def GroupInv (S : List OcrToken)
    (st : List (List OcrToken) × List OcrToken × Option (ℤ × ℤ)) : Prop :=
  (∀ g ∈ st.1, g ≠ [] ∧ ∀ x ∈ g, x ∈ S) ∧ (∀ x ∈ st.2.1, x ∈ S) ∧
    (st.2.2.isSome → st.2.1 ≠ [])

theorem groupStep_inv (S : List OcrToken) (st) (t : OcrToken) (ht : t ∈ S)
    (h : GroupInv S st) : GroupInv S (groupStep st t) := by
  obtain ⟨groups, cur, ck⟩ := st
  rcases h with ⟨hg, hc, hk⟩
  cases ck with
  | none =>
    refine ⟨hg, ?_, ?_⟩
    · intro x hx
      rcases List.mem_append.mp hx with hx | hx
      · exact hc x hx
      · simp at hx; exact hx ▸ ht
    · intro _
      simp [groupStep]
  | some c =>
    by_cases hkey : (t.par_num, t.line_num) ≠ c
    · simp only [groupStep, if_pos hkey]
      refine ⟨?_, ?_, ?_⟩
      · intro g hgm
        rcases List.mem_append.mp hgm with hgm | hgm
        · exact hg g hgm
        · simp at hgm
          subst hgm
          exact ⟨hk (by simp), hc⟩
      · intro x hx; simp at hx; exact hx ▸ ht
      · intro _; simp
    · simp only [groupStep, if_neg hkey]
      refine ⟨hg, ?_, ?_⟩
      · intro x hx
        rcases List.mem_append.mp hx with hx | hx
        · exact hc x hx
        · simp at hx; exact hx ▸ ht
      · intro _; simp

theorem groupFold_inv (S : List OcrToken) (l : List OcrToken) (hl : ∀ x ∈ l, x ∈ S) :
    ∀ st, GroupInv S st → GroupInv S (l.foldl groupStep st) := by
  induction l with
  | nil => intro st h; exact h
  | cons t ts ih =>
    intro st h
    simp only [List.foldl_cons]
    exact ih (fun x hx => hl x (List.mem_cons_of_mem _ hx)) _
      (groupStep_inv S st t (hl t (List.mem_cons_self _ _)) h)

theorem groupFold_key_some (l : List OcrToken) (hl : l ≠ []) :
    ∀ st, (l.foldl groupStep st).2.2.isSome := by
  induction l with
  | nil => exact absurd rfl hl
  | cons t ts ih =>
    intro st
    simp only [List.foldl_cons]
    cases hts : ts with
    | nil =>
      simp only [List.foldl_nil]
      obtain ⟨groups, cur, ck⟩ := st
      cases ck <;> simp [groupStep]
      split <;> simp
    | cons a b =>
      exact hts ▸ ih (by simp [hts]) _

theorem groupLines_props (ts : List OcrToken) (hts : ts ≠ []) :
    groupLines ts ≠ [] ∧ ∀ g ∈ groupLines ts, g ≠ [] ∧ ∀ x ∈ g, x ∈ ts := by
  have hinv := groupFold_inv ts ts (fun x hx => hx) ([], [], none)
    ⟨by simp, by simp, by simp⟩
  have hkey := groupFold_key_some ts hts ([], [], none)
  rcases hinv with ⟨hg, hc, hk⟩
  have hcur : (ts.foldl groupStep ([], [], none)).2.1 ≠ [] := hk hkey
  constructor
  · unfold groupLines
    rw [if_neg hcur]
    intro h
    rcases List.append_eq_nil.mp h with ⟨-, h2⟩
    simp at h2
  · intro g hgm
    unfold groupLines at hgm
    rw [if_neg hcur] at hgm
    rcases List.mem_append.mp hgm with hgm | hgm
    · exact hg g hgm
    · simp at hgm
      exact hgm ▸ ⟨hcur, hc⟩

theorem joinSep_ne_nil (sep : Str) (xs : List Str) (hne : xs ≠ [])
    (hx : ∀ x ∈ xs, x ≠ []) : joinSep sep xs ≠ [] := by
  cases xs with
  | nil => exact absurd rfl hne
  | cons x ys =>
    cases ys with
    | nil => exact hx x (by simp)
    | cons y zs =>
      simp only [joinSep]
      intro hc
      rcases List.append_eq_nil.mp (List.append_eq_nil.mp hc).1 with ⟨h1, -⟩
      exact hx x (by simp) h1

theorem buildText_good (ts : List OcrToken) (hts : ts ≠ [])
    (hw : ∀ t ∈ ts, GoodWord t.word) : GoodWord (buildText ts) := by
  obtain ⟨hne, hg⟩ := groupLines_props ts hts
  unfold buildText
  cases hgl : groupLines ts with
  | nil => exact absurd hgl hne
  | cons g gs =>
    have hgmem := hg g (hgl ▸ List.mem_cons_self _ _)
    rcases hgmem with ⟨hgne, hgsub⟩
    -- the first line string is a whitespace-free-headed word list join
    have hline : GoodWord (joinSep [' '] (g.map OcrToken.word)) := by
      cases hgc : g with
      | nil => exact absurd hgc hgne
      | cons t rest =>
        have := hw t (hgsub t (hgc ▸ List.mem_cons_self _ _))
        rcases this with ⟨c, u, hcu, hc⟩
        simp only [List.map_cons]
        rcases (List.map OcrToken.word rest) with - | ⟨w, ws⟩
        · exact ⟨c, u, by simp [joinSep, hcu], hc⟩
        · exact ⟨c, u ++ [' '] ++ joinSep [' '] (w :: ws), by simp [joinSep, hcu], hc⟩
    -- its trimmed form is kept by the filter
    have htr : GoodWord (strTrim (joinSep [' '] (g.map OcrToken.word))) := by
      rcases hline with ⟨c, u, hcu, hc⟩
      rw [hcu]
      exact strTrim_cons_good c u hc
    have hmemf : strTrim (joinSep [' '] (g.map OcrToken.word)) ∈
        ((((g :: gs).map (fun g => joinSep [' '] (g.map OcrToken.word))).map strTrim).filter
          (fun l => decide (l ≠ []))) := by
      refine List.mem_filter.mpr ⟨?_, ?_⟩
      · exact List.mem_map_of_mem strTrim (List.mem_map_of_mem _ (List.mem_cons_self _ _))
      · simpa using goodWord_ne_nil htr
    show GoodWord (joinSep ['\n']
      ((((g :: gs).map (fun g => joinSep [' '] (g.map OcrToken.word))).map strTrim).filter
        (fun l => decide (l ≠ []))))
    cases hfc : ((((g :: gs).map (fun g => joinSep [' '] (g.map OcrToken.word))).map strTrim).filter
        (fun l => decide (l ≠ []))) with
    | nil => rw [hfc] at hmemf; simp at hmemf
    | cons f fs =>
      have hf : GoodWord f := by
        have hfmem : f ∈ (((( g :: gs).map (fun g => joinSep [' '] (g.map OcrToken.word))).map strTrim).filter
            (fun l => decide (l ≠ []))) := by
          rw [hfc]
          exact List.mem_cons_self _ _
        have := List.mem_filter.mp hfmem
        rcases List.mem_map.mp this.1 with ⟨l0, -, hl0⟩
        have hfne : f ≠ [] := by simpa using this.2
        rw [← hl0]
        exact strTrim_good_of_ne l0 (hl0 ▸ hfne)
      rcases hf with ⟨c, u, hcu, hc⟩
      cases fs with
      | nil => exact ⟨c, u, by simp [joinSep, hcu], hc⟩
      | cons f2 fs2 => exact ⟨c, u ++ ['\n'] ++ joinSep ['\n'] (f2 :: fs2), by simp [joinSep, hcu], hc⟩

theorem pyWordsAux_ne_nil (l : Str) : ∀ cur, cur ≠ [] → pyWordsAux l cur ≠ [] := by
  induction l with
  | nil =>
    intro cur hc
    simp [pyWordsAux, hc]
  | cons c rest ih =>
    intro cur hc
    by_cases hs : pyIsSpace c = true
    · simp only [pyWordsAux, hs, if_true, if_neg hc]
      simp
    · simp only [pyWordsAux, hs]
      exact fun h => ih (c :: cur) (by simp) (by simpa [hs] using h)

theorem pyWords_good_ne (s : Str) (h : GoodWord s) : pyWords s ≠ [] := by
  rcases h with ⟨c, t, rfl, hc⟩
  unfold pyWords
  simp only [pyWordsAux, hc]
  exact pyWordsAux_ne_nil t [c] (by simp)

theorem nlToSpace_good (s : Str) (h : GoodWord s) : GoodWord (nlToSpace s) := by
  rcases h with ⟨c, t, rfl, hc⟩
  have hcn : c ≠ '\n' := by
    intro hcc
    rw [hcc] at hc
    simp [pyIsSpace] at hc
  exact ⟨c, nlToSpace t, by simp [nlToSpace, hcn], hc⟩

theorem meanConf_nonneg (ts : List OcrToken) (h : ∀ t ∈ ts, 0 ≤ t.conf) :
    0 ≤ meanConf ts := by
  unfold meanConf
  apply div_nonneg
  · apply List.sum_nonneg
    intro x hx
    rcases List.mem_map.mp hx with ⟨t, ht, rfl⟩
    exact h t ht
  · positivity

theorem score_nonneg (text : Str) (mc : ℚ) (hg : GoodWord text) (hmc : 0 ≤ mc) :
    0 ≤ score_ocr_result text mc := by
  unfold score_ocr_result
  rw [if_neg (goodWord_ne_nil hg), if_neg (pyWords_good_ne text hg)]
  have h1 : (0:ℚ) ≤ (6/10) * (mc / 100) := by positivity
  have h2 : (0:ℚ) ≤ (3/10) *
      ((((pyWords text).filter (fun w => w.any Char.isAlpha)).length : ℚ) /
        ((pyWords text).length : ℚ)) := by positivity
  have h3 : (0:ℚ) ≤ (1/10) * min ((text.length : ℚ) / 100) 1 := by
    have : (0:ℚ) ≤ min ((text.length : ℚ) / 100) 1 := le_min (by positivity) (by norm_num)
    linarith
  linarith

theorem parseTokens_props (rows : List RawRow) (t : OcrToken) (ht : t ∈ parseTokens rows) :
    GoodWord t.word ∧ 0 ≤ t.conf := by
  unfold parseTokens at ht
  rcases List.mem_filterMap.mp ht with ⟨r, -, hr⟩
  by_cases hg : strTrim r.word ≠ [] ∧ r.conf ≥ 0
  · simp only [if_pos hg] at hr
    cases hr
    exact ⟨strTrim_good_of_ne r.word hg.1, hg.2⟩
  · simp only [if_neg hg] at hr
    cases hr

theorem mkAttempt_props (toks : List OcrToken) (hne : toks ≠ [])
    (hgood : ∀ t ∈ toks, GoodWord t.word ∧ 0 ≤ t.conf) :
    (mkAttempt toks).text ≠ [] ∧ (mkAttempt toks).tokens ≠ [] ∧ 0 ≤ (mkAttempt toks).score := by
  have hsne : sortStable tokKeep toks ≠ [] := sortStable_ne_nil tokKeep toks hne
  have hsgood : ∀ t ∈ sortStable tokKeep toks, GoodWord t.word := by
    intro t ht
    exact (hgood t ((mem_sortStable tokKeep toks t).mp ht)).1
  have htext : GoodWord (buildText (sortStable tokKeep toks)) :=
    buildText_good _ hsne hsgood
  refine ⟨goodWord_ne_nil htext, hsne, ?_⟩
  show 0 ≤ score_ocr_result (nlToSpace (buildText (sortStable tokKeep toks)))
      (meanConf (sortStable tokKeep toks))
  apply score_nonneg
  · exact nlToSpace_good _ htext
  · apply meanConf_nonneg
    intro t ht
    exact (hgood t ((mem_sortStable tokKeep toks t).mp ht)).2

theorem computedAttempts_props (env : OcrEnv) (a : Attempt) (ha : a ∈ computedAttempts env) :
    a.text ≠ [] ∧ a.tokens ≠ [] ∧ 0 ≤ a.score := by
  unfold computedAttempts at ha
  rcases List.mem_filterMap.mp ha with ⟨raw, -, hr⟩
  cases raw with
  | none => simp [parseAttempt] at hr
  | some rows =>
    unfold parseAttempt at hr
    by_cases hz : parseTokens rows = []
    · simp only [if_pos hz] at hr
      cases hr
    · simp only [if_neg hz] at hr
      cases hr
      exact mkAttempt_props _ hz (fun t ht => parseTokens_props rows t ht)

theorem foldBest_ge_acc (l : List (Option (List RawRow))) :
    ∀ b : Attempt, b.score ≤ (l.foldl bestStep b).score := by
  induction l with
  | nil => intro b; simp
  | cons r rs ih =>
    intro b
    simp only [List.foldl_cons]
    refine le_trans ?_ (ih (bestStep b r))
    unfold bestStep
    cases parseAttempt r with
    | none => simp
    | some a =>
      by_cases h : a.score > b.score
      · simp only [if_pos h]
        exact le_of_lt h
      · simp [if_neg h]

theorem foldBest_ge (l : List (Option (List RawRow))) :
    ∀ (b a : Attempt), a ∈ l.filterMap parseAttempt → a.score ≤ (l.foldl bestStep b).score := by
  induction l with
  | nil => intro b a ha; simp at ha
  | cons r rs ih =>
    intro b a ha
    simp only [List.foldl_cons]
    rw [List.filterMap_cons] at ha
    cases hp : parseAttempt r with
    | none =>
      rw [hp] at ha
      exact ih _ a ha
    | some a0 =>
      rw [hp] at ha
      rcases List.mem_cons.mp ha with rfl | hmem
      · refine le_trans ?_ (foldBest_ge_acc rs (bestStep b r))
        unfold bestStep
        rw [hp]
        by_cases h : a.score > b.score
        · simp [if_pos h]
        · simp only [if_neg h]
          exact le_of_not_lt h
      · exact ih _ a hmem

theorem bestStep_cases (b : Attempt) (r : Option (List RawRow)) :
    bestStep b r = b ∨ ∃ a0, parseAttempt r = some a0 ∧ bestStep b r = a0 := by
  unfold bestStep
  cases hp : parseAttempt r with
  | none => left; rfl
  | some a0 =>
    by_cases hgt : a0.score > b.score
    · right
      refine ⟨a0, rfl, ?_⟩
      show (if a0.score > b.score then a0 else b) = a0
      rw [if_pos hgt]
    · left
      show (if a0.score > b.score then a0 else b) = b
      rw [if_neg hgt]

theorem foldBest_cases (l : List (Option (List RawRow))) :
    ∀ b : Attempt, l.foldl bestStep b = b ∨ l.foldl bestStep b ∈ l.filterMap parseAttempt := by
  induction l with
  | nil => intro b; left; rfl
  | cons r rs ih =>
    intro b
    simp only [List.foldl_cons, List.filterMap_cons]
    cases hp : parseAttempt r with
    | none =>
      rcases ih (bestStep b r) with h | h
      · rcases bestStep_cases b r with hs | ⟨a0, ha0, -⟩
        · left
          rw [h, hs]
        · rw [hp] at ha0
          cases ha0
      · right
        exact h
    | some a0 =>
      rcases ih (bestStep b r) with h | h
      · rcases bestStep_cases b r with hs | ⟨a1, ha1, hs⟩
        · left
          rw [h, hs]
        · right
          rw [hp] at ha1
          cases ha1
          rw [h, hs]
          exact List.mem_cons_self _ _
      · right
        exact List.mem_cons_of_mem _ h

/-- C2: the retained best transcription's score is ≥ the score of every
attempt the orchestrator computed over the cross product of image variants
and segmentation configs, and the selection is a pure function of the
engine outputs (re-running on identical data retains the identical choice). -/
theorem best_transcription_spec (env : OcrEnv) :
    (∀ a ∈ computedAttempts env, a.score ≤ (ocrSelectBest env).score) ∧
    (∀ env2 : OcrEnv, env = env2 → ocrWithTokens env = ocrWithTokens env2) := by
  constructor
  · intro a ha
    have h1 : a.score ≤ (loopBest env).score := foldBest_ge env.attempts initBest a ha
    by_cases hcond : (loopBest env).text = [] ∨ (loopBest env).tokens = []
    · exfalso
      rcases foldBest_cases env.attempts initBest with hinit | hmem
      · have hinit' : (loopBest env).score = -1 := by
          unfold loopBest
          rw [hinit]
          rfl
        have h0 := (computedAttempts_props env a ha).2.2
        rw [hinit'] at h1
        linarith
      · have hprops := computedAttempts_props env (loopBest env) hmem
        rcases hcond with hc | hc
        · exact hprops.1 hc
        · exact hprops.2.1 hc
    · have hsel : ocrSelectBest env = loopBest env := by
        unfold ocrSelectBest
        simp only [if_neg hcond]
      rw [hsel]
      exact h1
  · intro env2 h
    rw [h]

def ocrWitnessRow : RawRow :=
  { word := "cat".toList, conf := 90, bbox := ⟨1, 2, 30, 10⟩,
    line_num := 1, block_num := 1, par_num := 1, word_num := 1 }

def ocrWitnessEnv : OcrEnv := { attempts := [some [ocrWitnessRow]], fallback := none }

theorem best_transcription_spec_witness :
    (mkAttempt (parseTokens [ocrWitnessRow]) ∈ computedAttempts ocrWitnessEnv ∧
      (mkAttempt (parseTokens [ocrWitnessRow])).score ≤ (ocrSelectBest ocrWitnessEnv).score) ∧
    ocrWithTokens ocrWitnessEnv = ocrWithTokens ocrWitnessEnv := by
  have hmem : mkAttempt (parseTokens [ocrWitnessRow]) ∈ computedAttempts ocrWitnessEnv := by
    refine List.mem_filterMap.mpr ⟨some [ocrWitnessRow], by simp [ocrWitnessEnv], ?_⟩
    show (if parseTokens [ocrWitnessRow] = [] then none
      else some (mkAttempt (parseTokens [ocrWitnessRow]))) = some (mkAttempt (parseTokens [ocrWitnessRow]))
    rw [if_neg (by decide)]
  exact ⟨⟨hmem, (best_transcription_spec ocrWitnessEnv).1 _ hmem⟩,
    (best_transcription_spec ocrWitnessEnv).2 ocrWitnessEnv rfl⟩

/- ### `_validate_image_content` (lines 141-235) -/

/-- Result dict of the content validator. -/
structure ValidationResult where
  is_handwriting : Bool
  detected_type : String
  message : String
deriving DecidableEq

/-- External inputs of `_validate_image_content`: `raises` models an exception
escaping the whole body (e.g. `cv2` unavailable) with its message;
`face_check_raises` the inner `try` around the Haar cascade; `faces` the
number of detected faces; `edge_density` the Canny statistic
`sum(edges > 0)/(w·h)`; `skin_ratio` the HSV skin-mask statistic. -/
structure ValidatorEnv where
  raises : Option String
  face_check_raises : Bool
  faces : ℕ
  edge_density : ℚ
  skin_ratio : ℚ
deriving DecidableEq

/-- `gray.shape[0]` of the grayscale pixel grid. -/
def gridHeight (g : List (List ℕ)) : ℕ := g.length

/-- `gray.shape[1]` (all rows of a numpy image have equal length). -/
def gridWidth (g : List (List ℕ)) : ℕ := (g.headD []).length

/-- `np.std(gray) < t` for the integer pixel grid, kept in integer
arithmetic: for `n` pixels with sum `s` and sum of squares `s2`,
`std < t  ⟺  variance < t²  ⟺  n·s2 − s² < t²·n²  ⟺  n·s2 < t²·n² + s²`
(`std ≥ 0`, so squaring the comparison is exact). -/
def stdLt (g : List (List ℕ)) (t : ℕ) : Bool :=
  let xs := g.flatten
  let n := xs.length
  let s := xs.sum
  let s2 := (xs.map (fun x => x * x)).sum
  decide (n * s2 < t * t * n * n + s * s)

/-- `TesseractOCRProcessor._validate_image_content`, translated check by
check in source order. -/
def validateImageContent (g : List (List ℕ)) (env : ValidatorEnv) : ValidationResult :=
  match env.raises with
  | some e =>
    { is_handwriting := true, detected_type := "unknown",
      message := "Could not validate image content: " ++ e }
  | none =>
    if env.face_check_raises = false ∧ env.faces > 0 then
      { is_handwriting := false, detected_type := "human_face",
        message := "I can see a person in this image. Please upload an image of handwritten text instead." }
    else
      if gridWidth g < 100 ∨ gridHeight g < 50 then
        { is_handwriting := false, detected_type := "too_small",
          message := "Image is too small. Please upload a clearer image of your handwriting." }
      else if stdLt g 10 then
        { is_handwriting := false, detected_type := "uniform_color",
          message := "I don\x27t see any handwriting in this image. Please make sure there\x27s clear text written on paper." }
      else if env.edge_density > 3/10 then
        { is_handwriting := false, detected_type := "complex_scene",
          message := "This looks like a photo rather than handwriting. Please upload an image of text written on paper." }
      else if env.edge_density < 1/100 then
        { is_handwriting := false, detected_type := "no_content",
          message := "I don\x27t see any clear handwriting. Please write with darker ink and ensure good lighting." }
      else if env.skin_ratio > 15/100 then
        { is_handwriting := false, detected_type := "human_detected",
          message := "I can see a person in this image. Please upload an image of handwritten text on paper instead." }
      else
        { is_handwriting := true, detected_type := "handwriting",
          message := "Image appears to contain handwriting" }

/-- A 40×40 all-white grid (near-uniform white image of the C5 scenario). -/
def uniform40 : List (List ℕ) := List.replicate 40 (List.replicate 40 255)

/-- Validator environment with no exception, no face and zero statistics. -/
def validatorPlain : ValidatorEnv :=
  { raises := none, face_check_raises := false, faces := 0,
    edge_density := 0, skin_ratio := 0 }

set_option maxRecDepth 40000 in
/-- C5 counterexample: a 40×40 near-uniform white image (40 < 100 wide) is
rejected by the dimension floor, which runs *before* the uniform-color
check, so `detected_type` is `"too_small"`, not `"uniform_color"`. -/
theorem validator_40x40_uniform_cex :
    gridWidth uniform40 = 40 ∧ gridHeight uniform40 = 40 ∧
    stdLt uniform40 10 = true ∧
    (validateImageContent uniform40 validatorPlain).is_handwriting = false ∧
    (validateImageContent uniform40 validatorPlain).detected_type = "too_small" ∧
    (validateImageContent uniform40 validatorPlain).detected_type ≠ "uniform_color" := by
  refine ⟨by decide, by decide, by decide, ?_, ?_, ?_⟩ <;> decide

/-- C5 as amended: for every 40×40 near-uniform white image (no exception,
no detected face), the validator returns `is_handwriting = false` with
`detected_type = "too_small"` — the dimension floor fires before the
uniformity check. -/
theorem validator_40x40_uniform_amended (g : List (List ℕ)) (env : ValidatorEnv)
    (hraises : env.raises = none) (hfaces : env.faces = 0)
    (hw : gridWidth g = 40) (hh : gridHeight g = 40)
    (huniform : stdLt g 10 = true) :
    validateImageContent g env =
      { is_handwriting := false, detected_type := "too_small",
        message := "Image is too small. Please upload a clearer image of your handwriting." } := by
  unfold validateImageContent
  rw [hraises]
  rw [if_neg (by simp [hfaces])]
  rw [if_pos (by rw [hw]; norm_num)]

set_option maxRecDepth 40000 in
theorem validator_40x40_uniform_amended_witness :
    validatorPlain.raises = none ∧ validatorPlain.faces = 0 ∧
    gridWidth uniform40 = 40 ∧ gridHeight uniform40 = 40 ∧
    stdLt uniform40 10 = true ∧
    validateImageContent uniform40 validatorPlain =
      { is_handwriting := false, detected_type := "too_small",
        message := "Image is too small. Please upload a clearer image of your handwriting." } :=
  ⟨rfl, rfl, by decide, by decide, by decide,
    validator_40x40_uniform_amended uniform40 validatorPlain rfl rfl (by decide) (by decide) (by decide)⟩

/- ### `_analyze_character_errors` (lines 877-920) and the FeatureSet -/

/-- Feature dict of `_extract_geometric_features` (§ FeatureSet of the spec).
The safe-fallback dict of `_extract_geometric_features_safe` omits some keys;
those are modelled by the `.get` defaults its consumers use
(`circularity` 0, `perimeter` 0, `is_closed` false, `solidity` 0). -/
structure FeatureSet where
  area : ℚ
  perimeter : ℚ
  aspect_ratio : ℚ
  circularity : ℚ
  has_loops : Bool
  has_curves : Bool
  stroke_count : ℕ
  is_closed : Bool
  solidity : ℚ
deriving DecidableEq

/-- Issue record (dict key `"type"` is modelled by field `kind`). -/
structure Issue where
  kind : String
  description : String
  suggestion : String
deriving DecidableEq

/-- `TesseractOCRProcessor._analyze_character_errors`: the four appends in
source order (aspect-ratio checks are an `if`/`elif` pair). -/
def analyzeCharacterErrors (fs : FeatureSet) : List Issue :=
  (if fs.has_curves = true ∧ fs.circularity < 3/10 then
    [{ kind := "incomplete_curve",
       description := "Curve appears incomplete or irregular",
       suggestion := "Practice smooth, continuous curves" }]
   else []) ++
  (if fs.has_loops = false ∧ fs.circularity > 6/10 then
    [{ kind := "unclosed_loop",
       description := "Loop may not be properly closed",
       suggestion := "Ensure loops are completely closed" }]
   else []) ++
  (if fs.aspect_ratio > 5/2 then
    [{ kind := "flipped_letter",
       description := "Character appears unusually wide, possibly flipped",
       suggestion := "Check letter orientation (b vs d, p vs q)" }]
   else if fs.aspect_ratio < 3/10 then
    [{ kind := "compressed_letter",
       description := "Character appears too tall or compressed",
       suggestion := "Maintain consistent letter proportions" }]
   else []) ++
  (if fs.stroke_count > 2 then
    [{ kind := "broken_stroke",
       description := "Character has disconnected parts",
       suggestion := "Write with continuous, connected strokes" }]
   else [])

/-- C3: for every FeatureSet, `incomplete_curve` is emitted exactly when
curves are present and circularity < 0.3; `unclosed_loop` exactly when no
loop is present and circularity > 0.6; `flipped_letter` exactly when
aspect_ratio > 2.5; `compressed_letter` exactly when aspect_ratio < 0.3;
`broken_stroke` exactly when stroke_count > 2; and no other issue kind is
ever emitted. -/
theorem character_error_rules (fs : FeatureSet) :
    ("incomplete_curve" ∈ (analyzeCharacterErrors fs).map Issue.kind ↔
        (fs.has_curves = true ∧ fs.circularity < 3/10)) ∧
    ("unclosed_loop" ∈ (analyzeCharacterErrors fs).map Issue.kind ↔
        (fs.has_loops = false ∧ fs.circularity > 6/10)) ∧
    ("flipped_letter" ∈ (analyzeCharacterErrors fs).map Issue.kind ↔
        fs.aspect_ratio > 5/2) ∧
    ("compressed_letter" ∈ (analyzeCharacterErrors fs).map Issue.kind ↔
        fs.aspect_ratio < 3/10) ∧
    ("broken_stroke" ∈ (analyzeCharacterErrors fs).map Issue.kind ↔
        fs.stroke_count > 2) ∧
    ((analyzeCharacterErrors fs).map Issue.kind).all
      (fun k => ["incomplete_curve", "unclosed_loop", "flipped_letter",
                 "compressed_letter", "broken_stroke"].contains k) = true := by
  by_cases h1 : fs.has_curves = true ∧ fs.circularity < 3/10 <;>
  by_cases h2 : fs.has_loops = false ∧ fs.circularity > 6/10 <;>
  by_cases h3 : fs.aspect_ratio > 5/2 <;>
  by_cases h5 : fs.aspect_ratio < 3/10 <;>
  by_cases h4 : fs.stroke_count > 2 <;>
  first
    | (exfalso; linarith)
    | (refine ⟨?_, ?_, ?_, ?_, ?_, ?_⟩ <;>
        simp [analyzeCharacterErrors, h1, h2, h3, h4, h5])

/- ### `_enhanced_template_match` / `_enhanced_template_match_safe`
     (lines 748-753, 819-858) -/

/-- One row of the single-character `image_to_data` call (text plus the
already-parsed confidence; unparsable confidences arrive as `0`). -/
structure CharRow where
  text : Str
  conf : ℚ
deriving DecidableEq

/-- External inputs of `_enhanced_template_match`: `import_ok` is the
`import pytesseract` inside the function (its failure is the only exception
the function's own `except ImportError` catches); `fromarray_ok` models the
unguarded statements between the shape check and the inner `try`
(`Image.fromarray` etc.) — `false` means an exception escapes to the safe
wrapper; `data` is the engine call (`none` = the inner `try` caught an
exception). -/
structure ClassifierEnv where
  import_ok : Bool
  fromarray_ok : Bool
  data : Option (List CharRow)
deriving DecidableEq

/-- A ranked `(letter, confidence, rationale)` candidate. -/
structure TMatch where
  letter : Str
  confidence : ℚ
  reasoning : Str
deriving DecidableEq

/-- `sorted(matches, key=lambda x: x["confidence"], reverse=True)`:
`a` may stay before `b` iff `b`'s confidence is not larger. -/
def matchKeep (a b : TMatch) : Bool := decide (b.confidence ≤ a.confidence)

/-- `{"letter": "?", "confidence": 0.1, "reasoning": "Could not analyze"}`. -/
def placeholderMatch : TMatch :=
  { letter := ['?'], confidence := 1/10, reasoning := "Could not analyze".toList }

/-- `char.lower()` (ASCII). -/
def lowerStr (s : Str) : Str := s.map Char.toLower

/-- The `matches` list built in the inner loop of `_enhanced_template_match`:
keep a row when the stripped text is non-empty and `conf > 10`; letter is
lower-cased, confidence is `conf / 100`. -/
def candidateMatches (rows : List CharRow) : List TMatch :=
  rows.filterMap (fun r =>
    let ch := strTrim r.text
    if ch ≠ [] ∧ r.conf > 10 then
      some { letter := lowerStr ch, confidence := r.conf / 100,
             reasoning := "OCR recognition of \x27".toList ++ ch ++ ['\x27'] }
    else none)

/-- `TesseractOCRProcessor._enhanced_template_match` on a `sh × sw` character
image. `.error ()` models an exception escaping the function (only the
unguarded region can raise one). -/
def enhancedTemplateMatch (sh sw : ℤ) (env : ClassifierEnv) : Except Unit (List TMatch) :=
  if env.import_ok = false then .ok []
  else if sh = 0 ∨ sw = 0 then .ok []
  else if env.fromarray_ok = false then .error ()
  else
    match env.data with
    | none => .ok []
    | some rows => .ok ((sortStable matchKeep (candidateMatches rows)).take 3)

/-- `TesseractOCRProcessor._enhanced_template_match_safe`: the wrapper's
`except` returns the single `"?"` placeholder candidate. -/
def enhancedTemplateMatchSafe (sh sw : ℤ) (env : ClassifierEnv) : List TMatch :=
  match enhancedTemplateMatch sh sw env with
  | .ok l => l
  | .error _ => [placeholderMatch]

/-- `true` iff the classification attempt raised (escaped the function). -/
def classifierRaised (sh sw : ℤ) (env : ClassifierEnv) : Bool :=
  match enhancedTemplateMatch sh sw env with
  | .ok _ => false
  | .error _ => true

/-- Environment where the unguarded image-conversion step fails. -/
def classifierCexEnv : ClassifierEnv :=
  { import_ok := true, fromarray_ok := false, data := none }

/-- C6 counterexample: when the failure escapes the classifier's own
handlers, the safe wrapper returns the single `'?'` placeholder candidate,
not an empty list. -/
theorem classifier_failure_cex :
    classifierRaised 10 10 classifierCexEnv = true ∧
    enhancedTemplateMatchSafe 10 10 classifierCexEnv = [placeholderMatch] ∧
    enhancedTemplateMatchSafe 10 10 classifierCexEnv ≠ [] := by
  refine ⟨rfl, rfl, ?_⟩
  intro h
  rw [show enhancedTemplateMatchSafe 10 10 classifierCexEnv = [placeholderMatch] from rfl] at h
  exact List.cons_ne_nil _ _ h

/-- C6 as amended: failures inside the classifier's guarded region (failed
engine import, empty region, recognition error) yield an empty candidate
list; a failure escaping the guarded region is caught by the safe wrapper
and yields the single placeholder candidate `('?', 0.1)` — so no failure
raises.  On success (given the engine's 0–100 confidence contract) at most
three candidates are returned, sorted by descending confidence, each with
confidence in [0, 1]. -/
theorem classifier_amended (sh sw : ℤ) (env : ClassifierEnv)
    (hconf : ∀ r ∈ env.data.getD [], r.conf ≤ 100) :
    (enhancedTemplateMatch sh sw env = .error () →
        enhancedTemplateMatchSafe sh sw env = [placeholderMatch]) ∧
    ((env.import_ok = false ∨ sh = 0 ∨ sw = 0 ∨ env.data = none) →
        enhancedTemplateMatch sh sw env = .error () ∨
        enhancedTemplateMatchSafe sh sw env = []) ∧
    (∀ res, enhancedTemplateMatch sh sw env = .ok res →
        enhancedTemplateMatchSafe sh sw env = res ∧
        res.length ≤ 3 ∧
        List.Chain' (fun a b => b.confidence ≤ a.confidence) res ∧
        (∀ m ∈ res, 0 ≤ m.confidence ∧ m.confidence ≤ 1)) := by
  refine ⟨?_, ?_, ?_⟩
  · intro herr
    unfold enhancedTemplateMatchSafe
    rw [herr]
  · intro hfail
    by_cases h1 : env.import_ok = false
    · right
      unfold enhancedTemplateMatchSafe enhancedTemplateMatch
      rw [if_pos h1]
    · by_cases h2 : sh = 0 ∨ sw = 0
      · right
        unfold enhancedTemplateMatchSafe enhancedTemplateMatch
        rw [if_neg h1, if_pos h2]
      · by_cases h3 : env.fromarray_ok = false
        · left
          unfold enhancedTemplateMatch
          rw [if_neg h1, if_neg h2, if_pos h3]
        · right
          have hd : env.data = none := by tauto
          unfold enhancedTemplateMatchSafe enhancedTemplateMatch
          rw [if_neg h1, if_neg h2, if_neg h3, hd]
  · intro res hok
    have hsafe : enhancedTemplateMatchSafe sh sw env = res := by
      unfold enhancedTemplateMatchSafe
      rw [hok]
    refine ⟨hsafe, ?_⟩
    unfold enhancedTemplateMatch at hok
    by_cases h1 : env.import_ok = false
    · rw [if_pos h1] at hok
      cases hok
      refine ⟨by simp, by simp, by simp⟩
    · rw [if_neg h1] at hok
      by_cases h2 : sh = 0 ∨ sw = 0
      · rw [if_pos h2] at hok
        cases hok
        refine ⟨by simp, by simp, by simp⟩
      · rw [if_neg h2] at hok
        by_cases h3 : env.fromarray_ok = false
        · rw [if_pos h3] at hok
          cases hok
        · rw [if_neg h3] at hok
          cases hdata : env.data with
          | none =>
            rw [hdata] at hok
            cases hok
            refine ⟨by simp, by simp, by simp⟩
          | some rows =>
            rw [hdata] at hok
            cases hok
            rw [hdata] at hconf
            simp only [Option.getD_some] at hconf
            refine ⟨?_, ?_, ?_⟩
            · rw [List.length_take]
              exact min_le_left _ _
            · apply List.Pairwise.chain'
              apply List.Pairwise.sublist (List.take_sublist _ _)
              apply pairwise_sortStable matchKeep (fun a b => b.confidence ≤ a.confidence)
              · intro a b h
                exact of_decide_eq_true h
              · intro a b h
                have := of_decide_eq_false h
                linarith [lt_of_not_le this]
              · intro a b c hab hbc
                exact le_trans hbc hab
            · intro m hm
              have hm2 : m ∈ sortStable matchKeep (candidateMatches rows) :=
                List.take_subset _ _ hm
              have hm3 : m ∈ candidateMatches rows := (mem_sortStable _ _ _).mp hm2
              unfold candidateMatches at hm3
              rcases List.mem_filterMap.mp hm3 with ⟨r, hr, hmk⟩
              by_cases hg : strTrim r.text ≠ [] ∧ r.conf > 10
              · simp only [if_pos hg] at hmk
                cases hmk
                constructor
                · have : (0:ℚ) < r.conf := lt_trans (by norm_num) hg.2
                  positivity
                · have h100 : r.conf ≤ 100 := hconf r hr
                  rw [div_le_one (by norm_num : (0:ℚ) < 100)]
                  exact h100
              · simp only [if_neg hg] at hmk
                cases hmk

def classifierWitnessEnv : ClassifierEnv :=
  { import_ok := true, fromarray_ok := true, data := some [⟨"A".toList, 80⟩] }

theorem classifier_amended_witness :
    (∀ r ∈ classifierWitnessEnv.data.getD [], r.conf ≤ 100) ∧
    ((enhancedTemplateMatchSafe 5 5 classifierWitnessEnv).length ≤ 3 ∧
     List.Chain' (fun a b => b.confidence ≤ a.confidence)
       (enhancedTemplateMatchSafe 5 5 classifierWitnessEnv) ∧
     ∀ m ∈ enhancedTemplateMatchSafe 5 5 classifierWitnessEnv,
       0 ≤ m.confidence ∧ m.confidence ≤ 1) := by
  have hconf : ∀ r ∈ classifierWitnessEnv.data.getD [], r.conf ≤ 100 := by decide
  have hok : enhancedTemplateMatch 5 5 classifierWitnessEnv =
      .ok (enhancedTemplateMatchSafe 5 5 classifierWitnessEnv) := rfl
  have h := (classifier_amended 5 5 classifierWitnessEnv hconf).2.2 _ hok
  exact ⟨hconf, h.2.1, h.2.2.1, h.2.2.2⟩

/- ### `_analyze_characters` segmentation (lines 599-732) -/

/-- `a ≤ b` on ℚ as a Bool, for sorting projection values. -/
def ratKeep (a b : ℚ) : Bool := decide (a ≤ b)

/-- `np.percentile(proj, 30)` with the default linear interpolation:
virtual index `h = (n-1)·0.3`, result `a[⌊h⌋] + (h-⌊h⌋)·(a[⌊h⌋+1]-a[⌊h⌋])`
over the sorted values. -/
def percentile30 (proj : List ℚ) : ℚ :=
  let s := sortStable ratKeep proj
  let n := s.length
  if n = 0 then 0
  else
    let hq : ℚ := ((n : ℚ) - 1) * (3/10)
    let i : ℕ := (⌊hq⌋).toNat
    let lo := s.getD i 0
    let hi := s.getD (min (i + 1) (n - 1)) 0
    lo + (hq - (⌊hq⌋ : ℤ)) * (hi - lo)

/-- State of the valley-finding loop in `split_wide_bbox`:
`(in_gap, start, segments)`. -/
structure GapState where
  in_gap : Bool
  start : ℕ
  segments : List (ℕ × ℕ)
deriving DecidableEq

/-- One iteration of `for i, val in enumerate(proj)` in `split_wide_bbox`.
`i - st.start` is ℕ-truncated subtraction; the loop keeps `start ≤ i`, and
for the impossible opposite case Python's negative difference also fails
the `> 5` test, so the two agree on all inputs. -/
def gapStep (thresh : ℚ) (st : GapState) (iv : ℕ × ℚ) : GapState :=
  if iv.2 ≤ thresh ∧ st.in_gap = false then
    { in_gap := true, start := st.start,
      segments := if iv.1 - st.start > 5 then st.segments ++ [(st.start, iv.1)] else st.segments }
  else if iv.2 > thresh ∧ st.in_gap = true then
    { in_gap := false, start := iv.1, segments := st.segments }
  else st

/-- The `boxes`-building loop over `segments` (carries `(boxes, prev)`). -/
def boxStep (x y h : ℤ) (acc : List Bbox × ℕ) (se : ℕ × ℕ) : List Bbox × ℕ :=
  let ww : ℤ := (se.1 : ℤ) - (acc.2 : ℤ)
  (if ww > 5 then acc.1 ++ [⟨x + (acc.2 : ℤ), y, ww, h⟩] else acc.1, se.2)

/-- `split_wide_bbox` (lines 658-690): split boxes much wider than tall at
low-density valleys of the vertical projection `proj = roi.sum(axis=0)`. -/
def splitWideBbox (x y w h : ℤ) (proj : List ℚ) : List Bbox :=
  if (w : ℚ) ≤ (h : ℚ) * (9/5) then [⟨x, y, w, h⟩]
  else
    let thresh := percentile30 proj
    let segments := (proj.enum.foldl (gapStep thresh) ⟨false, 0, []⟩).segments
    if segments.length < 1 then [⟨x, y, w, h⟩]
    else
      let bp := segments.foldl (boxStep x y h) ([], 0)
      let boxes := if w - (bp.2 : ℤ) > 5 then bp.1 ++ [⟨x + (bp.2 : ℤ), y, w - (bp.2 : ℤ), h⟩] else bp.1
      if boxes = [] then [⟨x, y, w, h⟩] else boxes

/-- `min_area = max(20, int(0.00005 * img_w * img_h))` (⌊·⌋ equals Python
`int()` truncation on the non-negative products that occur). -/
def minArea (iw ih : ℤ) : ℤ := max 20 ⌊(5/100000 : ℚ) * ((iw * ih : ℤ) : ℚ)⌋

/-- `max_area = int(0.1 * img_w * img_h)`. -/
def maxArea (iw ih : ℤ) : ℤ := ⌊(1/10 : ℚ) * ((iw * ih : ℤ) : ℚ)⌋

/-- All measured data of one outer contour found by `cv2.findContours` on the
cleaned binary mask, plus the per-sub-box external measurements used when the
contour is split.  `proj` is the column-sum projection of the mask over the
contour's bounding box; `circ_value` is the measured `4π·area/perimeter²`
(π is irrational, so the value is an input, not recomputed);
`features_raise` models the `try` of `_extract_geometric_features_safe`. -/
structure ContourData where
  area : ℚ
  perimeter : ℚ
  circ_value : ℚ
  x : ℤ
  y : ℤ
  w : ℤ
  h : ℤ
  proj : List ℚ
  has_curves : Bool
  is_closed : Bool
  hull_area : ℚ
  features_raise : Bool
  loops_at : Bbox → Bool
  strokes_at : Bbox → ℕ
  classifier_at : Bbox → ClassifierEnv

/-- The area/size filter and wide-box splitting of the main contour loop:
every surviving `(contour, box)` pair becomes one character region. -/
def segmentRegions (iw ih : ℤ) (contours : List ContourData) : List (ContourData × Bbox) :=
  contours.foldl (fun acc c =>
    if c.area < ((minArea iw ih : ℤ) : ℚ) ∨ ((maxArea iw ih : ℤ) : ℚ) < c.area then acc
    else if c.w < 5 ∨ c.h < 5 then acc
    else acc ++ (splitWideBbox c.x c.y c.w c.h c.proj).map (fun p => (c, p))) []

theorem splitWideBbox_shapes (x y w h : ℤ) (proj : List ℚ) (b : Bbox)
    (hb : b ∈ splitWideBbox x y w h proj) :
    b = ⟨x, y, w, h⟩ ∨ (b.h = h ∧ 5 < b.w) := by
  unfold splitWideBbox at hb
  by_cases hc1 : (w : ℚ) ≤ (h : ℚ) * (9/5)
  · rw [if_pos hc1] at hb
    simp at hb
    exact Or.inl hb
  · rw [if_neg hc1] at hb
    by_cases hc2 : ((proj.enum.foldl (gapStep (percentile30 proj)) ⟨false, 0, []⟩).segments).length < 1
    · rw [if_pos hc2] at hb
      simp at hb
      exact Or.inl hb
    · rw [if_neg hc2] at hb
      -- fold invariant: every collected box has height h and width > 5
      have hfold : ∀ (segs : List (ℕ × ℕ)) (acc : List Bbox × ℕ),
          (∀ bb ∈ acc.1, bb.h = h ∧ 5 < bb.w) →
          ∀ bb ∈ (segs.foldl (boxStep x y h) acc).1, bb.h = h ∧ 5 < bb.w := by
        intro segs
        induction segs with
        | nil => intro acc hacc bb hbb; exact hacc bb hbb
        | cons se rest ih =>
          intro acc hacc bb hbb
          refine ih _ ?_ bb hbb
          intro b2 hb2
          unfold boxStep at hb2
          by_cases hww : ((se.1 : ℤ) - (acc.2 : ℤ)) > 5
          · simp only [if_pos hww] at hb2
            rcases List.mem_append.mp hb2 with hb2 | hb2
            · exact hacc b2 hb2
            · simp at hb2
              subst hb2
              exact ⟨rfl, hww⟩
          · simp only [if_neg hww] at hb2
            exact hacc b2 hb2
      set bp := ((proj.enum.foldl (gapStep (percentile30 proj)) ⟨false, 0, []⟩).segments).foldl
        (boxStep x y h) ([], 0) with hbp
      have hboxes : ∀ bb ∈ (if w - (bp.2 : ℤ) > 5 then
          bp.1 ++ [⟨x + (bp.2 : ℤ), y, w - (bp.2 : ℤ), h⟩] else bp.1), bb.h = h ∧ 5 < bb.w := by
        intro bb hbb
        by_cases hlast : w - (bp.2 : ℤ) > 5
        · rw [if_pos hlast] at hbb
          rcases List.mem_append.mp hbb with hbb | hbb
          · exact hfold _ ([], 0) (by simp) bb hbb
          · simp at hbb
            subst hbb
            exact ⟨rfl, hlast⟩
        · rw [if_neg hlast] at hbb
          exact hfold _ ([], 0) (by simp) bb hbb
      by_cases hemp : (if w - (bp.2 : ℤ) > 5 then
          bp.1 ++ [⟨x + (bp.2 : ℤ), y, w - (bp.2 : ℤ), h⟩] else bp.1) = []
      · rw [if_pos hemp] at hb
        simp at hb
        exact Or.inl hb
      · rw [if_neg hemp] at hb
        exact Or.inr (hboxes b hb)

/-- C4: every character region the segmenter produces — including sub-boxes
from splitting over-wide regions — has bounding-box width ≥ 5 and height ≥ 5,
and comes from a contour whose area lies within `[min_area, max_area]`;
moreover `min_area` is at least 20 pixels. -/
theorem segment_region_bounds (iw ih : ℤ) (contours : List ContourData) :
    (∀ cb ∈ segmentRegions iw ih contours,
        5 ≤ cb.2.w ∧ 5 ≤ cb.2.h ∧
        ((minArea iw ih : ℤ) : ℚ) ≤ cb.1.area ∧ cb.1.area ≤ ((maxArea iw ih : ℤ) : ℚ)) ∧
    20 ≤ minArea iw ih := by
  constructor
  · unfold segmentRegions
    suffices h : ∀ (cs : List ContourData) (acc : List (ContourData × Bbox)),
        (∀ cb ∈ acc, 5 ≤ cb.2.w ∧ 5 ≤ cb.2.h ∧
          ((minArea iw ih : ℤ) : ℚ) ≤ cb.1.area ∧ cb.1.area ≤ ((maxArea iw ih : ℤ) : ℚ)) →
        ∀ cb ∈ cs.foldl (fun acc c =>
          if c.area < ((minArea iw ih : ℤ) : ℚ) ∨ ((maxArea iw ih : ℤ) : ℚ) < c.area then acc
          else if c.w < 5 ∨ c.h < 5 then acc
          else acc ++ (splitWideBbox c.x c.y c.w c.h c.proj).map (fun p => (c, p))) acc,
          5 ≤ cb.2.w ∧ 5 ≤ cb.2.h ∧
          ((minArea iw ih : ℤ) : ℚ) ≤ cb.1.area ∧ cb.1.area ≤ ((maxArea iw ih : ℤ) : ℚ) by
      exact fun cb hcb => h contours [] (by simp) cb hcb
    intro cs
    induction cs with
    | nil => intro acc hacc cb hcb; exact hacc cb hcb
    | cons c rest ihc =>
      intro acc hacc cb hcb
      simp only [List.foldl_cons] at hcb
      refine ihc _ ?_ cb hcb
      intro cb2 hcb2
      by_cases harea : c.area < ((minArea iw ih : ℤ) : ℚ) ∨ ((maxArea iw ih : ℤ) : ℚ) < c.area
      · rw [if_pos harea] at hcb2
        exact hacc cb2 hcb2
      · rw [if_neg harea] at hcb2
        by_cases hwh : c.w < 5 ∨ c.h < 5
        · rw [if_pos hwh] at hcb2
          exact hacc cb2 hcb2
        · rw [if_neg hwh] at hcb2
          rcases List.mem_append.mp hcb2 with hcb2 | hcb2
          · exact hacc cb2 hcb2
          · rcases List.mem_map.mp hcb2 with ⟨p, hp, rfl⟩
            push_neg at harea hwh
            have hshape := splitWideBbox_shapes c.x c.y c.w c.h c.proj p hp
            refine ⟨?_, ?_, harea.1, harea.2⟩
            · show 5 ≤ p.w
              rcases hshape with rfl | ⟨-, hw5⟩
              · exact hwh.1
              · omega
            · show 5 ≤ p.h
              rcases hshape with rfl | ⟨hh5, -⟩
              · exact hwh.2
              · rw [hh5]
                exact hwh.2
  · exact le_max_left _ _

def contourWitness : ContourData :=
  { area := 500, perimeter := 90, circ_value := 1/2, x := 0, y := 0, w := 10, h := 10,
    proj := [], has_curves := false, is_closed := false, hull_area := 600,
    features_raise := false,
    loops_at := fun _ => false, strokes_at := fun _ => 1,
    classifier_at := fun _ => ⟨true, true, none⟩ }

theorem segment_region_bounds_witness :
    (contourWitness, (⟨0, 0, 10, 10⟩ : Bbox)) ∈ segmentRegions 100 100 [contourWitness] ∧
    (5 ≤ (contourWitness, (⟨0, 0, 10, 10⟩ : Bbox)).2.w ∧
      5 ≤ (contourWitness, (⟨0, 0, 10, 10⟩ : Bbox)).2.h ∧
      ((minArea 100 100 : ℤ) : ℚ) ≤ contourWitness.area ∧
      contourWitness.area ≤ ((maxArea 100 100 : ℤ) : ℚ)) ∧
    20 ≤ minArea 100 100 := by
  have hprod : ((100 * 100 : ℤ) : ℚ) = 10000 := by norm_num
  have hmin : minArea 100 100 = 20 := by
    unfold minArea
    rw [hprod]
    rw [show (5/100000 : ℚ) * 10000 = 1/2 by norm_num]
    rw [show ⌊(1/2 : ℚ)⌋ = 0 by norm_num [Int.floor_eq_iff]]
    decide
  have hmax : maxArea 100 100 = 1000 := by
    unfold maxArea
    rw [hprod]
    rw [show (1/10 : ℚ) * 10000 = 1000 by norm_num]
    rw [show ⌊(1000 : ℚ)⌋ = 1000 by norm_num [Int.floor_eq_iff]]
  have hc1 : ¬(contourWitness.area < ((minArea 100 100 : ℤ) : ℚ) ∨
      ((maxArea 100 100 : ℤ) : ℚ) < contourWitness.area) := by
    rw [hmin, hmax]
    show ¬((500 : ℚ) < ((20 : ℤ) : ℚ) ∨ ((1000 : ℤ) : ℚ) < (500 : ℚ))
    push_cast
    norm_num
  have hc2 : ¬(contourWitness.w < 5 ∨ contourWitness.h < 5) := by decide
  have hsplit : splitWideBbox 0 0 10 10 [] = [⟨0, 0, 10, 10⟩] := by
    unfold splitWideBbox
    rw [if_pos (by norm_num)]
  have hmem : (contourWitness, (⟨0, 0, 10, 10⟩ : Bbox)) ∈ segmentRegions 100 100 [contourWitness] := by
    unfold segmentRegions
    simp only [List.foldl_cons, List.foldl_nil]
    rw [if_neg hc1, if_neg hc2]
    show _ ∈ [] ++ (splitWideBbox contourWitness.x contourWitness.y contourWitness.w
      contourWitness.h contourWitness.proj).map (fun p => (contourWitness, p))
    rw [show splitWideBbox contourWitness.x contourWitness.y contourWitness.w
      contourWitness.h contourWitness.proj = splitWideBbox 0 0 10 10 [] from rfl, hsplit]
    simp
  exact ⟨hmem, (segment_region_bounds 100 100 [contourWitness]).1 _ hmem,
    (segment_region_bounds 100 100 [contourWitness]).2⟩

/- ### `_extract_geometric_features(_safe)` (lines 734-746, 775-799) -/

/-- The fallback dict of `_extract_geometric_features_safe`
(`{area: 100, aspect_ratio: 1.0, has_loops/has_curves: False,
stroke_count: 1}`); its missing keys are modelled by the `.get` defaults of
the only consumer, `_analyze_character_errors`. -/
def defaultFeatures : FeatureSet :=
  { area := 100, perimeter := 0, aspect_ratio := 1, circularity := 0,
    has_loops := false, has_curves := false, stroke_count := 1,
    is_closed := false, solidity := 0 }

/-- Feature extraction for one (contour, sub-box) pair: `area`, `perimeter`,
`has_curves`, `is_closed` and circularity come from the contour;
`aspect_ratio` from the sub-image shape `(p.h, p.w)`; loop and stroke
detection run on the sub-image (externally measured, `loops_at`/`strokes_at`);
`solidity` from the convex-hull area. -/
def extractFeatures (c : ContourData) (p : Bbox) : FeatureSet :=
  if c.features_raise then defaultFeatures
  else
    { area := c.area, perimeter := c.perimeter,
      aspect_ratio := if p.h > 0 then (p.w : ℚ) / (p.h : ℚ) else 0,
      circularity := if c.perimeter > 0 then c.circ_value else 0,
      has_loops := c.loops_at p, has_curves := c.has_curves,
      stroke_count := c.strokes_at p, is_closed := c.is_closed,
      solidity := if c.hull_area > 0 then c.area / c.hull_area else 0 }

/-- One character dict of `_analyze_characters` (dict key `"id"` is field
`rid`). -/
structure CharacterRegion where
  rid : ℕ
  bbox : Bbox
  features : FeatureSet
  template_matches : List TMatch
  errors : List Issue
deriving DecidableEq

instance : Inhabited CharacterRegion :=
  ⟨⟨0, ⟨0, 0, 0, 0⟩, defaultFeatures, [], []⟩⟩

/-- Region construction for one accepted (contour, sub-box) pair.
`_analyze_character_errors_safe`'s `except` is unreachable here (the rule
checks are pure dictionary reads), so the direct call models the safe
wrapper. -/
def mkRegion (cid : ℕ) (c : ContourData) (p : Bbox) : CharacterRegion :=
  let features := extractFeatures c p
  { rid := cid, bbox := p, features := features,
    template_matches := enhancedTemplateMatchSafe p.h p.w (c.classifier_at p),
    errors := analyzeCharacterErrors features }

/-- Return dict of `_analyze_characters`; `Option` fields model keys that
are absent on the failure paths. -/
structure CharAnalysis where
  characters : List CharacterRegion
  total_found : Option ℕ
  visual_overlay_path : Option String
  error : Option String
deriving DecidableEq

/-- `TesseractOCRProcessor._analyze_characters`: `seg_raise` models an
exception caught by the outer handler (e.g. `cv2` missing); `load_failed`
the imread+PIL double failure; `contours_failed` the `findContours` failure;
`overlay` the `_generate_visual_overlay` result (external drawing call). -/
def analyzeCharactersRun (seg_raise : Option String) (load_failed contours_failed : Bool)
    (iw ih : ℤ) (contours : List ContourData) (overlay : String) : CharAnalysis :=
  match seg_raise with
  | some m => ⟨[], none, none, some ("Character analysis failed: " ++ m)⟩
  | none =>
    if load_failed then ⟨[], none, none, some "Could not load image"⟩
    else if contours_failed then ⟨[], none, none, some "Could not find contours"⟩
    else
      let regs := (segmentRegions iw ih contours).enum.map
        (fun ic => mkRegion ic.1 ic.2.1 ic.2.2)
      ⟨regs, some regs.length, some overlay, none⟩

/- ### `_map_characters_to_words` (lines 440-512) -/

/-- One mapping entry (`char_index` is written by the final left-to-right
pass; `_build_word_feedback` reads it with default 0). -/
structure Mapping where
  word_index : ℕ
  char_bbox : Bbox
  template_matches : List TMatch
  errors : List Issue
  char_index : ℕ
deriving DecidableEq

def centerX (b : Bbox) : ℚ := (b.x : ℚ) + (b.w : ℚ) / 2

def centerY (b : Bbox) : ℚ := (b.y : ℚ) + (b.h : ℚ) / 2

/-- Vertical distance of the source: the two disjuncts of its zero test are
equivalent, as in the source (`(y <= cy <= y+h) or (cy <= y+h and cy >= y)`). -/
def vdist (t : Bbox) (cy : ℚ) : ℚ :=
  if ((t.y : ℚ) ≤ cy ∧ cy ≤ (t.y : ℚ) + (t.h : ℚ)) ∨
      (cy ≤ (t.y : ℚ) + (t.h : ℚ) ∧ (t.y : ℚ) ≤ cy) then 0
  else min |cy - (t.y : ℚ)| |cy - ((t.y : ℚ) + (t.h : ℚ))|

def hdist (t : Bbox) (cx : ℚ) : ℚ :=
  if (t.x : ℚ) ≤ cx ∧ cx ≤ (t.x : ℚ) + (t.w : ℚ) then 0
  else min |cx - (t.x : ℚ)| |cx - ((t.x : ℚ) + (t.w : ℚ))|

/-- `dist = vdist * 2 + hdist`. -/
def tokDist (t : Bbox) (cx cy : ℚ) : ℚ := vdist t cy * 2 + hdist t cx

/-- The fallback minimum-distance loop: `best_dist` starts at infinity
(modelled `none`), the strict `<` keeps the first minimiser; `-1` is
returned only over an empty token list. -/
def argminDist (tokens : List OcrToken) (cx cy : ℚ) : ℤ :=
  (tokens.enum.foldl (fun (acc : ℤ × Option ℚ) it =>
    let d := tokDist it.2.bbox cx cy
    match acc.2 with
    | none => ((it.1 : ℤ), some d)
    | some bd => if d < bd then ((it.1 : ℤ), some d) else acc) (-1, none)).1

/-- First token whose box contains the character center (the source breaks
on the first hit). -/
def containIdx (tokens : List OcrToken) (cx cy : ℚ) : Option ℕ :=
  tokens.findIdx? (fun t =>
    decide ((t.bbox.x : ℚ) ≤ cx ∧ cx ≤ (t.bbox.x : ℚ) + (t.bbox.w : ℚ) ∧
      (t.bbox.y : ℚ) ≤ cy ∧ cy ≤ (t.bbox.y : ℚ) + (t.bbox.h : ℚ)))

/-- `sorted(characters, key=lambda c: c['bbox'][0])`. -/
def charKeep (a b : CharacterRegion) : Bool := decide (a.bbox.x ≤ b.bbox.x)

/-- `TesseractOCRProcessor._map_characters_to_words`.  The `_line_pos` keys
the source writes into the token dicts are never read again and are omitted.
The final `char_index` pass is the source's stable per-word sort by x
followed by `enumerate`: entry `i`'s index equals the number of same-word
entries that precede it in that order. -/
def mapCharactersToWords (characters : List CharacterRegion) (tokens : List OcrToken) :
    List Mapping :=
  if characters = [] ∨ tokens = [] then []
  else
    let sortedC := sortStable charKeep characters
    let mapped := sortedC.filterMap (fun c =>
      let cx := centerX c.bbox
      let cy := centerY c.bbox
      let bw : ℤ :=
        match containIdx tokens cx cy with
        | some wi => (wi : ℤ)
        | none => argminDist tokens cx cy
      if bw = -1 then none
      else some ({ word_index := bw.toNat, char_bbox := c.bbox,
                   template_matches := c.template_matches, errors := c.errors,
                   char_index := 0 } : Mapping))
    mapped.enum.map (fun im =>
      ({ im.2 with char_index :=
          (mapped.enum.filter (fun jm =>
            decide (jm.2.word_index = im.2.word_index ∧
              (jm.2.char_bbox.x < im.2.char_bbox.x ∨
                (jm.2.char_bbox.x = im.2.char_bbox.x ∧ jm.1 < im.1))))).length } : Mapping))

/- ### `_build_word_feedback` (lines 514-547) -/

/-- One per-character issue entry inside a WordFeedback. -/
structure WFIssue where
  char_index : ℕ
  letter_hint : Option Str
  description : String
  suggestion : String
deriving DecidableEq

/-- One `word_feedback` entry. -/
structure WordFeedback where
  word_index : ℕ
  word : Str
  issues : List WFIssue
deriving DecidableEq

/-- `sorted(issues, key=lambda x: x['char_index'])`. -/
def issueKeep (a b : WFIssue) : Bool := decide (a.char_index ≤ b.char_index)

/-- The issue built from one mapping entry with errors: primary error is
`errs[0]`; the letter hint needs a first template match with
confidence ≥ 0.5. -/
def mappingIssue (m : Mapping) : Option WFIssue :=
  match m.errors with
  | [] => none
  | primary :: _ =>
    some { char_index := m.char_index,
           letter_hint :=
             match m.template_matches with
             | [] => none
             | mt :: _ => if mt.confidence ≥ 1/2 then some mt.letter else none,
           description := primary.description, suggestion := primary.suggestion }

/-- `word_issues[wi]` in mapping order (the defaultdict appends in loop
order; entries without errors are skipped). -/
def wordIssues (mapping : List Mapping) (wi : ℕ) : List WFIssue :=
  mapping.filterMap (fun m => if m.word_index = wi then mappingIssue m else none)

/-- `TesseractOCRProcessor._build_word_feedback`. -/
def buildWordFeedback (tokens : List OcrToken) (mapping : List Mapping) :
    List WordFeedback :=
  if tokens = [] then []
  else
    (List.range tokens.length).filterMap (fun wi =>
      let issues := sortStable issueKeep (wordIssues mapping wi)
      if issues = [] then none
      else some { word_index := wi, word := (tokens.getD wi default).word,
                  issues := issues })

/-- C8: for every token list and character-to-word mapping, the synthesized
word_feedback has an entry only for word indices with at least one issue
(every entry's issue list is non-empty), and within each entry the issues'
`char_index` values are non-decreasing. -/
theorem word_feedback_spec (tokens : List OcrToken) (mapping : List Mapping) :
    ∀ wf ∈ buildWordFeedback tokens mapping,
      wf.issues ≠ [] ∧
      List.Chain' (fun a b => a.char_index ≤ b.char_index) wf.issues := by
  intro wf hwf
  unfold buildWordFeedback at hwf
  by_cases ht : tokens = []
  · rw [if_pos ht] at hwf
    simp at hwf
  · rw [if_neg ht] at hwf
    rcases List.mem_filterMap.mp hwf with ⟨wi, -, hw⟩
    by_cases hiss : sortStable issueKeep (wordIssues mapping wi) = []
    · simp only [if_pos hiss] at hw
      cases hw
    · simp only [if_neg hiss] at hw
      cases hw
      refine ⟨hiss, ?_⟩
      apply List.Pairwise.chain'
      apply pairwise_sortStable issueKeep (fun a b => a.char_index ≤ b.char_index)
      · intro a b h
        exact of_decide_eq_true h
      · intro a b h
        have := of_decide_eq_false h
        omega
      · intro a b c hab hbc
        exact le_trans hab hbc

def feedbackWitnessToken : OcrToken :=
  { word := "dog".toList, conf := 75, bbox := ⟨0, 0, 40, 12⟩,
    line_num := 1, block_num := 1, par_num := 1, word_num := 1 }

def feedbackWitnessMapping : Mapping :=
  { word_index := 0, char_bbox := ⟨2, 1, 8, 10⟩, template_matches := [],
    errors := [{ kind := "broken_stroke",
                 description := "Character has disconnected parts",
                 suggestion := "Write with continuous, connected strokes" }],
    char_index := 0 }

theorem word_feedback_spec_witness :
    ∃ wf ∈ buildWordFeedback [feedbackWitnessToken] [feedbackWitnessMapping],
      wf.issues ≠ [] ∧
      List.Chain' (fun a b => a.char_index ≤ b.char_index) wf.issues := by
  have hne : buildWordFeedback [feedbackWitnessToken] [feedbackWitnessMapping] ≠ [] := by
    decide
  cases hfb : buildWordFeedback [feedbackWitnessToken] [feedbackWitnessMapping] with
  | nil => exact absurd hfb hne
  | cons wf rest =>
    refine ⟨wf, List.mem_cons_self _ _, ?_⟩
    exact word_feedback_spec [feedbackWitnessToken] [feedbackWitnessMapping] wf
      (by rw [hfb]; exact List.mem_cons_self _ _)

/- ### `_assemble_text_from_characters` (lines 391-438) -/

/-- `matches[0].get('letter', '') or ''` for one region. -/
def regionLetter (c : CharacterRegion) : Str :=
  match c.template_matches with
  | [] => []
  | m :: _ => m.letter

/-- `sorted(chars, key=lambda ch: ch['bbox'][1])`. -/
def regionYKeep (a b : CharacterRegion) : Bool := decide (a.bbox.y ≤ b.bbox.y)

/-- `sorted(line, key=lambda ch: ch['bbox'][0])`. -/
def regionXKeep (a b : CharacterRegion) : Bool := decide (a.bbox.x ≤ b.bbox.x)

/-- `sorted(lines, key=lambda lst: lst[0]['bbox'][1])` (line groups are never
empty, so the `headD` default is never used). -/
def lineKeep (a b : List CharacterRegion) : Bool :=
  decide ((a.headD default).bbox.y ≤ (b.headD default).bbox.y)

/-- Placement of one character into the line groups: find the first line
whose running y-center is within `max(h, 18)` of the character's center and
update that line's running average, else open a new line.  The source keeps
`lines` and `y_centers` as two parallel lists; the pairs here are the same
data. -/
def placeCharAux (cy hh : ℚ) (c : CharacterRegion) :
    List (List CharacterRegion × ℚ) → List (List CharacterRegion × ℚ)
  | [] => [([c], cy)]
  | (line, yc) :: rest =>
    if |cy - yc| ≤ max hh 18 then
      (line ++ [c], (yc * (line.length : ℚ) + cy) / ((line.length : ℚ) + 1)) :: rest
    else (line, yc) :: placeCharAux cy hh c rest

/-- `TesseractOCRProcessor._assemble_text_from_characters`.  The guard
`[c for c in characters if c.get('bbox')]` keeps every region (the bbox list
is always a non-empty, hence truthy, 4-list); its `try` body is pure, so the
`except` fallback is unreachable. -/
def assembleTextFromCharacters (characters : List CharacterRegion) : Str :=
  if characters = [] then []
  else
    let grouped := (sortStable regionYKeep characters).foldl
      (fun acc c => placeCharAux (centerY c.bbox) ((c.bbox.h : ℚ)) c acc) []
    let sortedLines := sortStable lineKeep (grouped.map Prod.fst)
    let assembled := sortedLines.map (fun line =>
      strTrim (((sortStable regionXKeep line).map regionLetter).flatten))
    joinSep ['\n'] (assembled.filter (fun l => decide (l ≠ [])))

/- ### `_post_process_text` (lines 1230-1249) -/

/-- Python `str.replace(pattern, repl)` for a non-empty pattern: replace
non-overlapping occurrences left to right.  Fuel = input length (each step
consumes at least one character), so the fuel never runs out; structural
recursion on the fuel keeps the definition kernel-reducible. -/
def listReplaceFuel (p r : Str) : ℕ → Str → Str
  | 0, s => s
  | _, [] => []
  | n + 1, c :: rest =>
    if p ≠ [] ∧ p.isPrefixOf (c :: rest) then
      r ++ listReplaceFuel p r n ((c :: rest).drop p.length)
    else c :: listReplaceFuel p r n rest

def listReplace (p r s : Str) : Str := listReplaceFuel p r s.length s

/-- `re.sub(r'\s+', ' ', ln)`: collapse each whitespace run to one space. -/
def collapseWsFuel : ℕ → Str → Str
  | 0, s => s
  | _, [] => []
  | n + 1, c :: rest =>
    if pyIsSpace c then ' ' :: collapseWsFuel n (rest.dropWhile pyIsSpace)
    else c :: collapseWsFuel n rest

def collapseWs (s : Str) : Str := collapseWsFuel s.length s

/-- Python `\w` for the ASCII range. -/
def isWordChar (c : Char) : Bool := c.isAlphanum || c == '_'

/-- `re.sub(r'\bd\b', r, text)` for a single word-character `d`: replace `d`
wherever both neighbours (in the original text) are absent or non-word. -/
def boundSubAux (d r : Char) (prev : Option Char) : Str → Str
  | [] => []
  | c :: rest =>
    let lOk := match prev with | none => true | some p2 => !isWordChar p2
    let rOk := match rest.head? with | none => true | some nx => !isWordChar nx
    (if c == d && lOk && rOk then r else c) :: boundSubAux d r (some c) rest

def boundSub (d r : Char) (s : Str) : Str := boundSubAux d r none s

/-- `re.sub(r'(.)\1{3,}', r'\1', text)`: a maximal run of 4 or more equal
non-newline characters collapses to a single one (`.` does not match
newline). -/
def collapseRepeatsFuel : ℕ → Str → Str
  | 0, s => s
  | _, [] => []
  | n + 1, c :: rest =>
    let run := rest.takeWhile (fun x => x == c)
    if c ≠ '\n' ∧ run.length ≥ 3 then c :: collapseRepeatsFuel n (rest.drop run.length)
    else c :: collapseRepeatsFuel n rest

def collapseRepeats (s : Str) : Str := collapseRepeatsFuel s.length s

/-- The fixed confusion table `{'rn': 'm', 'cl': 'd', 'vv': 'w', 'ii': 'n'}`
in dict insertion order. -/
def postCorrections : List (Str × Str) :=
  [("rn".toList, "m".toList), ("cl".toList, "d".toList),
   ("vv".toList, "w".toList), ("ii".toList, "n".toList)]

/-- `TesseractOCRProcessor._post_process_text`. -/
def postProcessText (text : Str) : Str :=
  if text = [] then text
  else
    let t1 := listReplace ['\r', '\n'] ['\n'] text
    let t2 := listReplace ['\r'] ['\n'] t1
    let lines := t2.splitOn '\n'
    let t3 := joinSep ['\n']
      (((lines.map (fun ln => strTrim (collapseWs ln)))).filter (fun l => decide (l ≠ [])))
    let t4 := postCorrections.foldl (fun s pr => listReplace pr.1 pr.2 s) t3
    let t5 := boundSub '1' 'I' t4
    let t6 := boundSub '0' 'O' t5
    collapseRepeats t6

/- ### `_analyze_basic_errors`, `_estimate_confidence`, `_analyze_image_quality`
     (lines 1175-1293) -/

/-- Basic OCR-confusion error record. -/
structure BasicError where
  kind : String
  detected : String
  suggestion : String
  description : String
deriving DecidableEq

/-- The confusion table of `_analyze_basic_errors` in dict order. -/
def ocrConfusions : List (String × String) :=
  [("0", "O"), ("1", "I"), ("5", "S"), ("8", "B"),
   ("cl", "d"), ("rn", "m"), ("vv", "w"), ("ii", "n")]

/-- Python `wrong in text` (substring containment). -/
def containsSub (needle hay : Str) : Bool :=
  hay.tails.any (fun t => needle.isPrefixOf t)

/-- `TesseractOCRProcessor._analyze_basic_errors`. -/
def analyzeBasicErrors (text : Str) : List BasicError :=
  ocrConfusions.filterMap (fun wc =>
    if containsSub wc.1.toList text then
      some { kind := "ocr_confusion", detected := wc.1, suggestion := wc.2,
             description := "\x27" ++ wc.1 ++ "\x27 might be \x27" ++ wc.2 ++ "\x27" }
    else none)

/-- `TesseractOCRProcessor._estimate_confidence`. -/
def estimateConfidence (text : Str) : ℚ :=
  if strTrim text = [] then 0
  else
    let readable := (text.filter (fun c => c.isAlphanum || pyIsSpace c)).length
    let total := text.length
    let c1 : ℚ :=
      if total > 0 then (4/10) + ((readable : ℚ) / (total : ℚ)) * (4/10) else 4/10
    let words := pyWords text
    let c2 : ℚ :=
      if words ≠ [] then
        c1 + (((words.filter (fun w => decide (w.length ≥ 2) && w.all Char.isAlpha)).length : ℚ)
          / (words.length : ℚ)) * (2/10)
      else c1
    let c3 := if (strTrim text).length < 3 then c2 * (7/10) else c2
    min 1 c3

/-- Result dict of `_analyze_image_quality`.  The source stores
`np.std` (an irrational square root); `contrast_sq` keeps its square, the
variance, so the record stays rational — the only consumer is the
`contrast < 30` check, which equals `variance < 900`. -/
structure ImageQuality where
  brightness : ℚ
  contrast_sq : ℚ
  sharpness : ℚ
  text_density : ℚ
  image_width : ℤ
  image_height : ℤ
  issues : List String
  suggestions : List String
deriving DecidableEq

/-- `np.mean` over the grid. -/
def gridMean (g : List (List ℕ)) : ℚ :=
  let xs := g.flatten
  if xs.length = 0 then 0 else ((xs.sum : ℕ) : ℚ) / (xs.length : ℚ)

/-- `np.var` over the grid (the square of `np.std`). -/
def gridVar (g : List (List ℕ)) : ℚ :=
  let xs := g.flatten
  if xs.length = 0 then 0
  else ((xs.map (fun x => ((x : ℚ) - gridMean g) ^ 2)).sum) / (xs.length : ℚ)

/-- Sum of `|np.diff(row)|` along one row (`axis=1` contribution). -/
def rowDiffSum (row : List ℕ) : ℚ :=
  match row with
  | [] => 0
  | _ :: t => ((row.zip t).map (fun pr => |((pr.2 : ℚ)) - (pr.1 : ℚ)|)).sum

/-- Sum of `|np.diff(g, axis=0)|`: absolute differences of vertically
adjacent pixels. -/
def colDiffSum (g : List (List ℕ)) : ℚ :=
  match g with
  | [] => 0
  | _ :: t => ((g.zip t).map (fun pr =>
      ((pr.1.zip pr.2).map (fun q => |((q.2 : ℚ)) - (q.1 : ℚ)|)).sum)).sum

/-- `_calculate_sharpness`: summed absolute differences over both axes,
divided by the pixel count. -/
def sharpnessOf (g : List (List ℕ)) : ℚ :=
  let n := g.flatten.length
  if n = 0 then 0 else (colDiffSum g + (g.map rowDiffSum).sum) / (n : ℚ)

/-- `_estimate_text_density`: fraction of pixels below `mean - std`.
`x < μ - σ  ⟺  μ - x > 0 ∧ variance < (μ - x)²` keeps the test rational. -/
def textDensity (g : List (List ℕ)) : ℚ :=
  let xs := g.flatten
  if xs.length = 0 then 0
  else
    ((xs.filter (fun x =>
      decide (0 < gridMean g - (x : ℚ) ∧ gridVar g < (gridMean g - (x : ℚ)) ^ 2))).length : ℚ)
      / (xs.length : ℚ)

/-- `TesseractOCRProcessor._analyze_image_quality` (`contrast < 30` is
evaluated as `variance < 900`). -/
def analyzeImageQuality (g : List (List ℕ)) : ImageQuality :=
  let b := gridMean g
  let v := gridVar g
  let sh := sharpnessOf g
  let td := textDensity g
  let w : ℤ := (gridWidth g : ℤ)
  let h : ℤ := (gridHeight g : ℤ)
  let pairs : List (String × String) :=
    (if b < 80 then [("Image is too dark", "Increase lighting")]
     else if b > 200 then [("Image is overexposed", "Reduce lighting")] else []) ++
    (if v < 900 then [("Low contrast", "Use darker ink")] else []) ++
    (if sh < 50 then [("Image appears blurry", "Hold camera steady")] else []) ++
    (if w < 300 ∨ h < 300 then [("Low resolution", "Take photo closer")] else []) ++
    (if td < 2/100 then [("Very little text detected", "Ensure handwriting fills image")] else [])
  { brightness := b, contrast_sq := v, sharpness := sh, text_density := td,
    image_width := w, image_height := h,
    issues := pairs.map Prod.fst, suggestions := pairs.map Prod.snd }

/-- `max((t.get("line_num", 1) for t in tokens), default=1)`. -/
def linesEstimated (tokens : List OcrToken) : ℤ :=
  match tokens.map OcrToken.line_num with
  | [] => 1
  | x :: xs => xs.foldl max x

/-- The `content_summary` dict. -/
structure ContentSummary where
  content_type : String
  lines_estimated : ℤ
  text_summary : Str
deriving DecidableEq

/- ### `recognize_handwriting` / `correct_handwriting`
     (lines 18-139, 1295-1319) -/

/-- The result dict.  `Option` fields model keys that are present only on
some paths (the early-failure dicts carry only `success`, `error`,
`recognized_text`, `confidence`, `character_analysis`); `corrected_text` and
`corrections_applied` are added only by `correct_handwriting`. -/
structure AnalysisResult where
  success : Bool
  error : Option String
  recognized_text : Str
  confidence : ℚ
  errors : Option (List BasicError)
  image_analysis : Option ImageQuality
  character_analysis : CharAnalysis
  tokens : Option (List OcrToken)
  word_feedback : Option (List WordFeedback)
  summary : Option ContentSummary
  visual_overlay_path : Option String
  validation_warning : Option String
  corrected_text : Option Str
  corrections_applied : Option (List String)
deriving DecidableEq

/-- The early-failure dict shape (`success=False`, empty text, confidence 0,
empty character analysis). -/
def failureResult (msg : String) : AnalysisResult :=
  { success := false, error := some msg, recognized_text := [], confidence := 0,
    errors := none, image_analysis := none,
    character_analysis := ⟨[], none, none, none⟩,
    tokens := none, word_feedback := none, summary := none,
    visual_overlay_path := none, validation_warning := none,
    corrected_text := none, corrections_applied := none }

/-- External inputs of one `recognize_handwriting` call.  `gray` is the
grayscale pixel grid (used by the validator and `_analyze_image_quality`);
`overlay_words` is the `_generate_visual_overlay_with_words` result (that
helper catches its own exceptions and returns a path or `""`, so the
caller's `except` fallback is dead code). -/
structure RecognizeEnv where
  image_path : String
  tesseract_available : Bool
  file_exists : Bool
  image_open_error : Option String
  gray : List (List ℕ)
  validator : ValidatorEnv
  ocr : OcrEnv
  img_w : ℤ
  img_h : ℤ
  contours : List ContourData
  seg_raise : Option String
  seg_load_failed : Bool
  seg_contours_failed : Bool
  seg_overlay : String
  overlay_words : String

/-- `_analyze_characters(image_path)` under a `RecognizeEnv`. -/
def analyzeCharactersEnv (env : RecognizeEnv) : CharAnalysis :=
  analyzeCharactersRun env.seg_raise env.seg_load_failed env.seg_contours_failed
    env.img_w env.img_h env.contours env.seg_overlay

/-- The body of `recognize_handwriting` after the input checks, with the OCR
result and character analysis passed explicitly (they are computed from the
environment by `recognizeSuccess`). -/
def recognizeCore (env : RecognizeEnv) (ocrR : OcrResult) (ca : CharAnalysis) :
    AnalysisResult :=
  let cv := validateImageContent env.gray env.validator
  let warning : Option String :=
    if cv.is_handwriting = false ∧ cv.message ≠ "" then some cv.message else none
  let text0 := ocrR.text
  let tokens := ocrR.tokens
  let text1 :=
    if (text0 = [] ∨ strTrim text0 = []) ∧ ca.characters ≠ [] then
      (let a := assembleTextFromCharacters ca.characters
       if a ≠ [] then a else text0)
    else text0
  let mapping := mapCharactersToWords ca.characters tokens
  let wf := buildWordFeedback tokens mapping
  let text2 := if text1 ≠ [] then postProcessText text1 else text1
  { success := true, error := none, recognized_text := text2,
    confidence := estimateConfidence text2,
    errors := some (analyzeBasicErrors text2),
    image_analysis := some (analyzeImageQuality env.gray),
    character_analysis := ca, tokens := some tokens,
    word_feedback := some wf,
    summary := some { content_type := "handwriting",
                      lines_estimated := linesEstimated tokens,
                      text_summary := text2.take 120 },
    visual_overlay_path := some env.overlay_words,
    validation_warning := warning,
    corrected_text := none, corrections_applied := none }

/-- The success path of `recognize_handwriting`. -/
def recognizeSuccess (env : RecognizeEnv) : AnalysisResult :=
  recognizeCore env (ocrWithTokens env.ocr) (analyzeCharactersEnv env)

/-- `TesseractOCRProcessor.recognize_handwriting` (also
`HandwritingAnalyzer.recognize_handwriting`, which only delegates). -/
def recognizeHandwriting (env : RecognizeEnv) : AnalysisResult :=
  if env.image_path = "" then failureResult "Invalid image path"
  else if env.tesseract_available = false then
    failureResult "Tesseract not available - install with: pip install pytesseract"
  else if env.file_exists = false then
    failureResult ("Image file not found: " ++ env.image_path)
  else
    match env.image_open_error with
    | some e => failureResult e
    | none => recognizeSuccess env

/-- `text.replace('teh', 'the').replace('adn', 'and')` — Python substring
replacement, applied in sequence. -/
def applyBasicCorrections (t : Str) : Str :=
  listReplace ("adn".toList) ("and".toList) (listReplace ("teh".toList) ("the".toList) t)

/-- `HandwritingAnalyzer.correct_handwriting`. -/
def correctHandwriting (env : RecognizeEnv) : AnalysisResult :=
  let result := recognizeHandwriting env
  if result.success = false then result
  else
    let corrected := applyBasicCorrections result.recognized_text
    { result with
        corrected_text := some corrected,
        corrections_applied :=
          some (if corrected ≠ result.recognized_text then ["Basic corrections applied"] else []) }

/-- Whole-word replacement of the claim's wording, for comparison with the
source's substring replacement: a whitespace-delimited token equal to `teh`
(resp. `adn`) becomes `the` (resp. `and`); everything else, separators
included, is kept verbatim.  This definition follows the spec's words
("a small fixed dictionary of common whole-word corrections"), not the
source. -/
def specWholeWordFix (w : Str) : Str :=
  if w = "teh".toList then "the".toList
  else if w = "adn".toList then "and".toList
  else w

def specWholeWordCorrectionsFuel : ℕ → Str → Str
  | 0, s => s
  | _, [] => []
  | n + 1, c :: rest =>
    if pyIsSpace c then c :: specWholeWordCorrectionsFuel n rest
    else
      specWholeWordFix ((c :: rest).takeWhile (fun d => !pyIsSpace d)) ++
        specWholeWordCorrectionsFuel n ((c :: rest).dropWhile (fun d => !pyIsSpace d))

def specWholeWordCorrections (s : Str) : Str := specWholeWordCorrectionsFuel s.length s

theorem validator_message_ne (g : List (List ℕ)) (v : ValidatorEnv)
    (h : (validateImageContent g v).is_handwriting = false) :
    (validateImageContent g v).message ≠ "" := by
  revert h
  unfold validateImageContent
  cases v.raises with
  | some e =>
    intro h
    simp at h
  | none =>
    intro h
    split_ifs at h ⊢ <;> simp_all

theorem recognize_eq_success (env : RecognizeEnv)
    (h1 : env.image_path ≠ "") (h2 : env.tesseract_available = true)
    (h3 : env.file_exists = true) (h4 : env.image_open_error = none) :
    recognizeHandwriting env = recognizeSuccess env := by
  unfold recognizeHandwriting
  rw [if_neg h1, if_neg (by simp [h2]), if_neg (by simp [h3]), h4]

/-- C7: on any input that passes the entry checks but whose content
validation says "not handwriting", `recognize_handwriting` does not abort:
the result is returned with `success = true`, the validator's message is
attached as `validation_warning`, and character analysis, OCR tokens and
word-feedback synthesis all still run (the corresponding result fields hold
those stages' outputs). -/
theorem recognize_validator_advisory (env : RecognizeEnv)
    (h1 : env.image_path ≠ "") (h2 : env.tesseract_available = true)
    (h3 : env.file_exists = true) (h4 : env.image_open_error = none)
    (h5 : (validateImageContent env.gray env.validator).is_handwriting = false) :
    (recognizeHandwriting env).success = true ∧
    (recognizeHandwriting env).validation_warning =
      some (validateImageContent env.gray env.validator).message ∧
    (recognizeHandwriting env).character_analysis = analyzeCharactersEnv env ∧
    (recognizeHandwriting env).tokens = some (ocrWithTokens env.ocr).tokens ∧
    (recognizeHandwriting env).word_feedback =
      some (buildWordFeedback (ocrWithTokens env.ocr).tokens
        (mapCharactersToWords (analyzeCharactersEnv env).characters
          (ocrWithTokens env.ocr).tokens)) := by
  rw [recognize_eq_success env h1 h2 h3 h4]
  refine ⟨rfl, ?_, rfl, rfl, rfl⟩
  show (if (validateImageContent env.gray env.validator).is_handwriting = false ∧
      (validateImageContent env.gray env.validator).message ≠ "" then
      some (validateImageContent env.gray env.validator).message else none) =
    some (validateImageContent env.gray env.validator).message
  rw [if_pos ⟨h5, validator_message_ne env.gray env.validator h5⟩]

def recognizeWitnessEnv : RecognizeEnv :=
  { image_path := "sample.png", tesseract_available := true, file_exists := true,
    image_open_error := none, gray := [[255]],
    validator := validatorPlain,
    ocr := { attempts := [], fallback := none },
    img_w := 1, img_h := 1, contours := [], seg_raise := none,
    seg_load_failed := false, seg_contours_failed := false,
    seg_overlay := "", overlay_words := "" }

theorem recognize_validator_advisory_witness :
    recognizeWitnessEnv.image_path ≠ "" ∧
    (validateImageContent recognizeWitnessEnv.gray
      recognizeWitnessEnv.validator).is_handwriting = false ∧
    ((recognizeHandwriting recognizeWitnessEnv).success = true ∧
      (recognizeHandwriting recognizeWitnessEnv).validation_warning =
        some (validateImageContent recognizeWitnessEnv.gray
          recognizeWitnessEnv.validator).message ∧
      (recognizeHandwriting recognizeWitnessEnv).character_analysis =
        analyzeCharactersEnv recognizeWitnessEnv ∧
      (recognizeHandwriting recognizeWitnessEnv).tokens =
        some (ocrWithTokens recognizeWitnessEnv.ocr).tokens ∧
      (recognizeHandwriting recognizeWitnessEnv).word_feedback =
        some (buildWordFeedback (ocrWithTokens recognizeWitnessEnv.ocr).tokens
          (mapCharactersToWords (analyzeCharactersEnv recognizeWitnessEnv).characters
            (ocrWithTokens recognizeWitnessEnv.ocr).tokens))) :=
  ⟨by decide, by decide,
    recognize_validator_advisory recognizeWitnessEnv (by decide) rfl rfl rfl (by decide)⟩

/-- C10: if the content validator's own computation raises, the validator
returns `is_handwriting = true`, `detected_type = "unknown"` and a message
noting the failure; the pipeline neither rejects the input nor aborts
(`success = true`, and no rejection warning is attached). -/
theorem validator_exception_nonfatal (env : RecognizeEnv) (msg : String)
    (h0 : env.validator.raises = some msg)
    (h1 : env.image_path ≠ "") (h2 : env.tesseract_available = true)
    (h3 : env.file_exists = true) (h4 : env.image_open_error = none) :
    (validateImageContent env.gray env.validator).is_handwriting = true ∧
    (validateImageContent env.gray env.validator).detected_type = "unknown" ∧
    (validateImageContent env.gray env.validator).message =
      "Could not validate image content: " ++ msg ∧
    (recognizeHandwriting env).success = true ∧
    (recognizeHandwriting env).validation_warning = none := by
  have hv : validateImageContent env.gray env.validator =
      { is_handwriting := true, detected_type := "unknown",
        message := "Could not validate image content: " ++ msg } := by
    unfold validateImageContent
    rw [h0]
  rw [recognize_eq_success env h1 h2 h3 h4]
  refine ⟨by rw [hv], by rw [hv], by rw [hv], rfl, ?_⟩
  show (if (validateImageContent env.gray env.validator).is_handwriting = false ∧
      (validateImageContent env.gray env.validator).message ≠ "" then
      some (validateImageContent env.gray env.validator).message else none) = none
  rw [if_neg]
  rw [hv]
  simp

def validatorRaisingEnv : RecognizeEnv :=
  { image_path := "page.png", tesseract_available := true, file_exists := true,
    image_open_error := none, gray := [[255]],
    validator := { raises := some "cv2 unavailable", face_check_raises := false,
                   faces := 0, edge_density := 0, skin_ratio := 0 },
    ocr := { attempts := [], fallback := none },
    img_w := 1, img_h := 1, contours := [], seg_raise := none,
    seg_load_failed := false, seg_contours_failed := false,
    seg_overlay := "", overlay_words := "" }

theorem validator_exception_nonfatal_witness :
    validatorRaisingEnv.validator.raises = some "cv2 unavailable" ∧
    validatorRaisingEnv.image_path ≠ "" ∧
    ((validateImageContent validatorRaisingEnv.gray
        validatorRaisingEnv.validator).is_handwriting = true ∧
      (validateImageContent validatorRaisingEnv.gray
        validatorRaisingEnv.validator).detected_type = "unknown" ∧
      (validateImageContent validatorRaisingEnv.gray
        validatorRaisingEnv.validator).message =
        "Could not validate image content: " ++ "cv2 unavailable" ∧
      (recognizeHandwriting validatorRaisingEnv).success = true ∧
      (recognizeHandwriting validatorRaisingEnv).validation_warning = none) :=
  ⟨rfl, by decide,
    validator_exception_nonfatal validatorRaisingEnv "cv2 unavailable" rfl (by decide) rfl rfl rfl⟩

/-- C9 as amended: `correct_handwriting` returns `recognize_handwriting`'s
result unmodified when recognition failed; on success it returns the same
result extended with `corrected_text` obtained by *substring* replacement
(`'teh'→'the'` then `'adn'→'and'`, Python `str.replace`, not whole-word) and
a `corrections_applied` marker; every other field is unchanged. -/
theorem correct_handwriting_amended (env : RecognizeEnv) :
    ((recognizeHandwriting env).success = false →
        correctHandwriting env = recognizeHandwriting env) ∧
    ((recognizeHandwriting env).success = true →
        correctHandwriting env =
          { recognizeHandwriting env with
              corrected_text :=
                some (applyBasicCorrections (recognizeHandwriting env).recognized_text),
              corrections_applied :=
                some (if applyBasicCorrections (recognizeHandwriting env).recognized_text ≠
                    (recognizeHandwriting env).recognized_text
                  then ["Basic corrections applied"] else []) }) := by
  constructor
  · intro h
    show (if (recognizeHandwriting env).success = false then recognizeHandwriting env
      else ({ recognizeHandwriting env with
          corrected_text :=
            some (applyBasicCorrections (recognizeHandwriting env).recognized_text),
          corrections_applied :=
            some (if applyBasicCorrections (recognizeHandwriting env).recognized_text ≠
                (recognizeHandwriting env).recognized_text
              then ["Basic corrections applied"] else []) })) = recognizeHandwriting env
    rw [if_pos h]
  · intro h
    show (if (recognizeHandwriting env).success = false then recognizeHandwriting env
      else ({ recognizeHandwriting env with
          corrected_text :=
            some (applyBasicCorrections (recognizeHandwriting env).recognized_text),
          corrections_applied :=
            some (if applyBasicCorrections (recognizeHandwriting env).recognized_text ≠
                (recognizeHandwriting env).recognized_text
              then ["Basic corrections applied"] else []) })) = _
    rw [if_neg (by rw [h]; simp)]

def cexRow : RawRow :=
  { word := "tehran".toList, conf := 80, bbox := ⟨0, 0, 60, 20⟩,
    line_num := 1, block_num := 1, par_num := 1, word_num := 1 }

def cexOcrEnv : OcrEnv := { attempts := [some [cexRow]], fallback := none }

def cexEnv : RecognizeEnv :=
  { image_path := "word.png", tesseract_available := true, file_exists := true,
    image_open_error := none, gray := [[255]],
    validator := validatorPlain, ocr := cexOcrEnv,
    img_w := 1, img_h := 1, contours := [], seg_raise := none,
    seg_load_failed := false, seg_contours_failed := false,
    seg_overlay := "", overlay_words := "" }

theorem cex_parseAttempt :
    parseAttempt (some [cexRow]) = some (mkAttempt (parseTokens [cexRow])) := by
  show (if parseTokens [cexRow] = [] then none
    else some (mkAttempt (parseTokens [cexRow]))) = some (mkAttempt (parseTokens [cexRow]))
  rw [if_neg (by decide)]

theorem cex_score_nonneg : 0 ≤ (mkAttempt (parseTokens [cexRow])).score :=
  (mkAttempt_props (parseTokens [cexRow]) (by decide)
    (fun t ht => parseTokens_props [cexRow] t ht)).2.2

theorem cex_loopBest : loopBest cexOcrEnv = mkAttempt (parseTokens [cexRow]) := by
  show bestStep initBest (some [cexRow]) = mkAttempt (parseTokens [cexRow])
  unfold bestStep
  rw [cex_parseAttempt]
  show (if (mkAttempt (parseTokens [cexRow])).score > initBest.score then
    mkAttempt (parseTokens [cexRow]) else initBest) = mkAttempt (parseTokens [cexRow])
  rw [if_pos]
  show initBest.score < (mkAttempt (parseTokens [cexRow])).score
  exact lt_of_lt_of_le (show initBest.score < 0 by decide) cex_score_nonneg

theorem cex_selectBest : ocrSelectBest cexOcrEnv = mkAttempt (parseTokens [cexRow]) := by
  unfold ocrSelectBest
  rw [cex_loopBest]
  show (if (mkAttempt (parseTokens [cexRow])).text = [] ∨
      (mkAttempt (parseTokens [cexRow])).tokens = [] then _ else
      mkAttempt (parseTokens [cexRow])) = mkAttempt (parseTokens [cexRow])
  rw [if_neg (by decide)]

theorem cex_ocr_result :
    ocrWithTokens cexOcrEnv =
      { text := "tehran".toList,
        tokens := sortStable tokKeep (parseTokens [cexRow]),
        mean_conf := (mkAttempt (parseTokens [cexRow])).mean_conf } := by
  show ({ text := (ocrSelectBest cexOcrEnv).text,
          tokens := (ocrSelectBest cexOcrEnv).tokens,
          mean_conf := (ocrSelectBest cexOcrEnv).mean_conf } : OcrResult) = _
  rw [cex_selectBest]
  congr 1

theorem cex_recognized_text :
    (recognizeHandwriting cexEnv).recognized_text = "tehran".toList := by
  rw [recognize_eq_success cexEnv (by decide) rfl rfl rfl]
  show (recognizeCore cexEnv (ocrWithTokens cexEnv.ocr)
    (analyzeCharactersEnv cexEnv)).recognized_text = "tehran".toList
  rw [show cexEnv.ocr = cexOcrEnv from rfl, cex_ocr_result]
  decide

theorem cex_success : (recognizeHandwriting cexEnv).success = true := by
  rw [recognize_eq_success cexEnv (by decide) rfl rfl rfl]
  rfl

/-- C9 counterexample: on an input whose recognized text is `"tehran"`,
`correct_handwriting` produces `corrected_text = "theran"` (substring
replacement of `teh`), whereas whole-word replacement of the fixed
dictionary leaves `"tehran"` unchanged — so the corrected text is not the
whole-word application of the dictionary. -/
theorem correct_whole_word_cex :
    (recognizeHandwriting cexEnv).recognized_text = "tehran".toList ∧
    (correctHandwriting cexEnv).corrected_text = some ("theran".toList) ∧
    specWholeWordCorrections ((recognizeHandwriting cexEnv).recognized_text) =
      "tehran".toList ∧
    some ("theran".toList) ≠ some ("tehran".toList) := by
  refine ⟨cex_recognized_text, ?_, ?_, by decide⟩
  · show (if (recognizeHandwriting cexEnv).success = false then recognizeHandwriting cexEnv
      else ({ recognizeHandwriting cexEnv with
          corrected_text :=
            some (applyBasicCorrections (recognizeHandwriting cexEnv).recognized_text),
          corrections_applied :=
            some (if applyBasicCorrections (recognizeHandwriting cexEnv).recognized_text ≠
                (recognizeHandwriting cexEnv).recognized_text
              then ["Basic corrections applied"] else []) })).corrected_text =
      some ("theran".toList)
    rw [if_neg (by rw [cex_success]; simp)]
    show some (applyBasicCorrections (recognizeHandwriting cexEnv).recognized_text) =
      some ("theran".toList)
    rw [cex_recognized_text]
    decide
  · rw [cex_recognized_text]
    decide

theorem correct_handwriting_amended_witness :
    (recognizeHandwriting cexEnv).success = true ∧
    correctHandwriting cexEnv =
      { recognizeHandwriting cexEnv with
          corrected_text :=
            some (applyBasicCorrections (recognizeHandwriting cexEnv).recognized_text),
          corrections_applied :=
            some (if applyBasicCorrections (recognizeHandwriting cexEnv).recognized_text ≠
                (recognizeHandwriting cexEnv).recognized_text
              then ["Basic corrections applied"] else []) } :=
  ⟨cex_success, (correct_handwriting_amended cexEnv).2 cex_success⟩
